import Mathlib

/-
Shallow embedding of the deterministic retrieval-and-ranking engine of the
AI-Architect repository:

* the three ranking functions of `backend/app/ranking.py`
  (`rank_compute_instances`, `rank_k8s_packages`, `rank_hf_models`),
* the RAG index builder of `scripts/build_hf_rag_index.py`
  (`normalize_text`, `apply_exclusion_rules` rule 1, `build_canonical_mapping`,
  `extract_key_sections`, `chunk_text`, `_sliding_window_split`),
* the model-search orchestrator `search_hf_models` of
  `backend/app/tools/hf_tool.py`.

External effectful collaborators (the tiktoken tokenizer, the SHA-256 hash,
the database and the embedding service) are modelled as explicit functional
parameters; everything the repository computes itself is translated directly.
-/

namespace AIArch

/-! ### Python's stable sort

`sorted(xs, key=k)` is a stable sort comparing keys.  We model it as
insertion sort with a boolean (non-strict) comparison `le`: an element is
inserted before the first already-placed element it is `le`-related to,
which reproduces a stable sort exactly. -/

def insertLe (le : α → α → Bool) (x : α) : List α → List α
  | [] => [x]
  | y :: ys => if le x y then x :: y :: ys else y :: insertLe le x ys

def pySorted (le : α → α → Bool) : List α → List α
  | [] => []
  | x :: xs => insertLe le x (pySorted le xs)

/-! ### Lexicographic tuple comparison

Python compares the `_sort_key` tuples lexicographically.  `prodLe` is the
non-strict lexicographic comparison of a pair given a comparison of the
second component; nesting it models tuples of any width. -/

def baseLe [LinearOrder α] (x y : α) : Bool := decide (x ≤ y)

def prodLe [LinearOrder α] (leB : β → β → Bool) (x y : α × β) : Bool :=
  if x.1 < y.1 then true else if x.1 = y.1 then leB x.2 y.2 else false

/-! ### Dense 1-based rank annotation

Each ranking function ends with `for i, x in enumerate(sorted): x['rank'] = i+1`;
we model the rank field with a wrapper record. -/

structure Ranked (α : Type) where
  item : α
  rank : Nat
deriving DecidableEq, Repr

def withRanksFrom (i : Nat) : List α → List (Ranked α)
  | [] => []
  | x :: xs => ⟨x, i⟩ :: withRanksFrom (i + 1) xs

def withRanks (l : List α) : List (Ranked α) := withRanksFrom 1 l

/-! ## `rank_compute_instances` (backend/app/ranking.py)

A compute instance row.  The Python code reads the fields with
`inst.get(...)`; absent values are `None`, modelled with `Option`.
The `filters` argument of the source function is never used by the ranking
logic and is omitted. -/

structure Inst where
  price_monthly : Option ℚ
  gpu_memory_gb : Option ℚ
  gpu_count : Option ℚ
  provider : String
  name : String
deriving DecidableEq, Repr

/-- `inst.get('price_monthly') or 999999`: Python `or` replaces both a
missing price and a zero price (`0` is falsy) by the sentinel. -/
def instEffPrice (i : Inst) : ℚ :=
  match i.price_monthly with
  | none => 999999
  | some p => if p = 0 then 999999 else p

/-- `inst.get('gpu_memory_gb') or 0` (for `0` the `or` also yields `0`,
so this agrees with `getD 0`). -/
def instVram (i : Inst) : ℚ := i.gpu_memory_gb.getD 0

/-- `inst.get('gpu_count') or 0`. -/
def instCnt (i : Inst) : ℚ := i.gpu_count.getD 0

/-- The `_sort_key` tuple
`(price or 999999, -(vram or 0), -(count or 0), provider, name)`.
String components are compared through their character lists (code-point
lexicographic order, as Python compares `str`). -/
def instSortKey (i : Inst) : ℚ × ℚ × ℚ × List Char × List Char :=
  (instEffPrice i, -(instVram i), -(instCnt i), i.provider.data, i.name.data)

def instLe (a b : Inst) : Bool :=
  prodLe (prodLe (prodLe (prodLe baseLe))) (instSortKey a) (instSortKey b)

/-- `rank_compute_instances`: sort by the composite key, annotate dense
1-based ranks. -/
def rank_compute_instances (instances : List Inst) : List (Ranked Inst) :=
  withRanks (pySorted instLe instances)

/-- The composite key order, written out in the claim's vocabulary:
price ascending (missing/zero price as the large sentinel), then GPU memory
descending, GPU count descending, provider ascending, name ascending. -/
def InstClaimLe (a b : Inst) : Prop :=
  instEffPrice a < instEffPrice b ∨ (instEffPrice a = instEffPrice b ∧
    (instVram b < instVram a ∨ (instVram a = instVram b ∧
      (instCnt b < instCnt a ∨ (instCnt a = instCnt b ∧
        (a.provider.data < b.provider.data ∨ (a.provider.data = b.provider.data ∧
          a.name.data ≤ b.name.data)))))))

/-! ## `rank_k8s_packages` (backend/app/ranking.py)

Python's `q in s` substring test and `s.startswith(q)`, modelled on the
character lists of the strings. -/

def subListOf [BEq α] (needle : List α) : List α → Bool
  | [] => needle.isEmpty
  | y :: ys => List.isPrefixOf needle (y :: ys) || subListOf needle ys

/-- Python `needle in hay` for strings. -/
def pyIn (needle hay : String) : Bool := subListOf needle.data hay.data

/-- Python `s.startswith(q)`. -/
def pyStartswith (s q : String) : Bool := List.isPrefixOf q.data s.data

/-- Python `s.lower()` (ASCII model, which covers all texts appearing in
the claims; the source lowers via `str.lower`). -/
def pyLower (s : String) : String := String.mk (s.data.map Char.toLower)

/-- Python `s.strip()`: remove leading and trailing whitespace. -/
def pyStrip (s : String) : String :=
  String.mk (((s.data.dropWhile Char.isWhitespace).reverse.dropWhile
    Char.isWhitespace).reverse)

/-- A Helm/K8s package row, fields read with `pkg.get(...)`. -/
structure Pkg where
  name : Option String
  description : Option String
  stars : Option Nat
  official : Bool
deriving DecidableEq, Repr

/-- `(pkg.get('name') or '').lower()`. -/
def pkgNameLower (p : Pkg) : String := pyLower (p.name.getD "")

/-- `(pkg.get('description') or '').lower()`. -/
def pkgDescLower (p : Pkg) : String := pyLower (p.description.getD "")

/-- The five-tier match score against the lowered, stripped query. -/
def pkgMatchScore (ql : String) (p : Pkg) : Nat :=
  if pkgNameLower p = ql then 1000
  else if pyStartswith (pkgNameLower p) ql then 900
  else if pyIn ql (pkgNameLower p) then 800
  else if pyIn ql (pkgDescLower p) then 700
  else 0

/-- `0 if pkg.get('official') else 1` — official packages first. -/
def pkgOfficialKey (p : Pkg) : Nat := if p.official then 0 else 1

/-- The `_sort_key` tuple
`(-match_score, -(stars or 0), 0 if official else 1, name_lower)`. -/
def pkgSortKey (ql : String) (p : Pkg) : ℤ × ℤ × ℕ × List Char :=
  (-(pkgMatchScore ql p : ℤ), -((p.stars.getD 0 : ℕ) : ℤ),
    pkgOfficialKey p, (pkgNameLower p).data)

def pkgLe (ql : String) (a b : Pkg) : Bool :=
  prodLe (prodLe (prodLe baseLe)) (pkgSortKey ql a) (pkgSortKey ql b)

/-- `rank_k8s_packages`: lower and strip the query, sort by the composite
key, annotate dense 1-based ranks. -/
def rank_k8s_packages (packages : List Pkg) (query : String) : List (Ranked Pkg) :=
  withRanks (pySorted (pkgLe (pyStrip (pyLower query))) packages)

/-- The package order in the claim's vocabulary: match tier descending, then
stars descending, then official first, then *lowercased* name ascending. -/
def PkgClaimLe (ql : String) (a b : Pkg) : Prop :=
  pkgMatchScore ql b < pkgMatchScore ql a ∨ (pkgMatchScore ql a = pkgMatchScore ql b ∧
    (b.stars.getD 0 < a.stars.getD 0 ∨ (a.stars.getD 0 = b.stars.getD 0 ∧
      (pkgOfficialKey a < pkgOfficialKey b ∨ (pkgOfficialKey a = pkgOfficialKey b ∧
        (pkgNameLower a).data ≤ (pkgNameLower b).data)))))

/-! ## `rank_hf_models` (backend/app/ranking.py)

Scores are Python floats computed with `math.log`; they are modelled as
real numbers with `Real.log` (an idealization of IEEE arithmetic), and
`round(x, 4)` as rounding `x * 10^4` to the nearest integer. -/

structure HFModel where
  model_id : String
  downloads : Option Nat
  likes : Option Nat

/-- `popularity = log(downloads + 1) + log(likes + 1)`, missing counts
treated as 0 (`model.get('downloads') or 0`). -/
noncomputable def hfPopularity (m : HFModel) : ℝ :=
  Real.log ((m.downloads.getD 0 : ℕ) + 1) + Real.log ((m.likes.getD 0 : ℕ) + 1)

/-- `max_popularity`, accumulated from `0.0`. -/
noncomputable def hfMaxPop (models : List HFModel) : ℝ :=
  models.foldl (fun acc m => max acc (hfPopularity m)) 0

/-- `popularity / max_popularity if max_popularity > 0 else 0`. -/
noncomputable def hfNormPop (maxPop : ℝ) (m : HFModel) : ℝ :=
  if 0 < maxPop then hfPopularity m / maxPop else 0

/-- `relevance_scores.get(model_id, 0.5)`. -/
noncomputable def hfRelevance (rels : String → Option ℝ) (m : HFModel) : ℝ :=
  (rels m.model_id).getD 0.5

/-- `combined_score = 0.6 * relevance + 0.4 * norm_popularity`. -/
noncomputable def hfCombined (rels : String → Option ℝ) (maxPop : ℝ)
    (m : HFModel) : ℝ :=
  0.6 * hfRelevance rels m + 0.4 * hfNormPop maxPop m

/-- Python `round(x, 4)` (modelled with round-to-nearest). -/
noncomputable def round4 (x : ℝ) : ℝ := ((round (x * 10000) : ℤ) : ℝ) / 10000

/-- A model dict after the scoring loop: the stored (rounded) scores plus
the unrounded combined score kept in `_sort_key`. -/
structure HFScored where
  base : HFModel
  relevance_score : ℝ
  combined_score : ℝ
  sortCombined : ℝ

noncomputable def hfAnnotate (rels : String → Option ℝ) (maxPop : ℝ)
    (m : HFModel) : HFScored :=
  ⟨m, round4 (hfRelevance rels m), round4 (hfCombined rels maxPop m),
    hfCombined rels maxPop m⟩

/-- `_sort_key = (-combined_score, model_id)` compared as a Python tuple. -/
noncomputable def hfLe (a b : HFScored) : Bool :=
  prodLe baseLe (-a.sortCombined, a.base.model_id.data)
    (-b.sortCombined, b.base.model_id.data)

/-- A model dict as returned (internal keys deleted). -/
structure HFOut where
  base : HFModel
  relevance_score : ℝ
  combined_score : ℝ

noncomputable def hfCleanup (s : HFScored) : HFOut :=
  ⟨s.base, s.relevance_score, s.combined_score⟩

/-- `rank_hf_models`: score, sort by `(-combined, model_id)`, drop the
internal keys, annotate dense 1-based ranks. -/
noncomputable def rank_hf_models (models : List HFModel)
    (rels : String → Option ℝ) : List (Ranked HFOut) :=
  withRanks ((pySorted hfLe
    (models.map (hfAnnotate rels (hfMaxPop models)))).map hfCleanup)

/-! ## `search_hf_models` (backend/app/tools/hf_tool.py)

The database and the embedding service are external: the chunk-search rows
(`card_scores`) and the model-metadata rows (`models`) are passed in as the
values those queries return.  Settings mirror `app/config.py` defaults. -/

structure HFSettings where
  hf_top_k : Nat
  hf_chunk_top_k : Nat
  hf_embedding_model_name : String
  hf_chunker_version : String

structure CardScore where
  card_hash : String
  combined_similarity : ℝ

structure HFModelRow where
  model_id : String
  license : Option String
  likes : Nat
  downloads : Nat
  pipeline_tag : Option String
  card_hash : String

/-- The metadata dict: the empty-result branch carries only the first four
keys, the full branch also `chunker_version` and the echoed filters. -/
structure HFMetadata where
  total_found : Nat
  top_k : Nat
  query : String
  embedding_model : String
  chunker_version : Option String
  filters : Option (Option String × Option (List String))

structure HFSearchResult where
  results : List (Ranked HFOut)
  metadata : HFMetadata

/-- `top_k = top_k or settings.hf_top_k`: Python `or` replaces a missing
*or zero* requested `top_k` by the configured default. -/
def effectiveTopK (settings : HFSettings) (top_k : Option Nat) : Nat :=
  match top_k with
  | none => settings.hf_top_k
  | some k => if k = 0 then settings.hf_top_k else k

/-- `relevance_by_card.get(card_hash, 0.0)` (hashes are unique per the
`GROUP BY card_hash`). -/
noncomputable def relOfCard (card_scores : List CardScore) (h : String) : ℝ :=
  ((card_scores.find? (fun cs => cs.card_hash = h)).map
    CardScore.combined_similarity).getD 0

/-- `search_hf_models`: resolve `top_k`; if the chunk search returned no
rows, return the normal empty result (not an error); otherwise propagate
each card's combined similarity to its models as the relevance score, rank
with `rank_hf_models`, truncate to `top_k`. -/
noncomputable def search_hf_models (settings : HFSettings)
    (card_scores : List CardScore) (models : List HFModelRow)
    (query : String) (pipeline_tag : Option String)
    (license_filter : Option (List String)) (top_k : Option Nat) :
    HFSearchResult :=
  let tk := effectiveTopK settings top_k
  if card_scores.isEmpty then
    ⟨[], ⟨0, tk, query, settings.hf_embedding_model_name, none, none⟩⟩
  else
    let rels : String → Option ℝ := fun mid =>
      ((models.find? (fun r => r.model_id = mid)).map
        (fun r => relOfCard card_scores r.card_hash))
    let ranked := rank_hf_models
      (models.map (fun r => ⟨r.model_id, some r.downloads, some r.likes⟩)) rels
    ⟨ranked.take tk,
      ⟨ranked.length, tk, query, settings.hf_embedding_model_name,
        some settings.hf_chunker_version, some (pipeline_tag, license_filter)⟩⟩

/-! ## `build_canonical_mapping` (scripts/build_hf_rag_index.py, step B)

The SQL query returns one row per non-excluded card with
`COALESCE(downloads, 0)`, `COALESCE(likes, 0)`, ordered by
`card_hash, downloads DESC, likes DESC, model_id ASC`; Python then groups the
rows into a `defaultdict(list)` keyed by `card_hash` (insertion order, each
group keeping the sorted order) and takes `group[0]` as canonical. -/

structure CardRow where
  model_id : String
  card_hash : String
  downloads : Option Nat
  likes : Option Nat
deriving DecidableEq, Repr

/-- `COALESCE(m.downloads, 0)`. -/
def rowDownloads (r : CardRow) : Nat := r.downloads.getD 0

/-- `COALESCE(m.likes, 0)`. -/
def rowLikes (r : CardRow) : Nat := r.likes.getD 0

/-- The `ORDER BY card_hash, downloads DESC, likes DESC, model_id ASC` key. -/
def rowSortKey (r : CardRow) : List Char × ℤ × ℤ × List Char :=
  (r.card_hash.data, -(rowDownloads r : ℤ), -(rowLikes r : ℤ), r.model_id.data)

def rowLe (a b : CardRow) : Bool := prodLe (prodLe (prodLe baseLe)) (rowSortKey a) (rowSortKey b)

/-- `hash_groups[card['card_hash']].append(card)` on a `defaultdict(list)`:
append to the existing group, or create a new group at the end. -/
def addToGroups (gs : List (String × List CardRow)) (r : CardRow) :
    List (String × List CardRow) :=
  match gs with
  | [] => [(r.card_hash, [r])]
  | (h, g) :: rest =>
    if h = r.card_hash then (h, g ++ [r]) :: rest
    else (h, g) :: addToGroups rest r

def groupByHash (rows : List CardRow) : List (String × List CardRow) :=
  rows.foldl addToGroups []

/-- One row of `hf.card_canon`. -/
structure CanonEntry where
  card_hash : String
  canonical_model_id : String
  duplicate_count : Nat
deriving DecidableEq, Repr

/-- The `model_to_card_data` rows collected per group. -/
def m2cOfGroups : List (String × List CardRow) → List (String × String)
  | [] => []
  | (h, g) :: rest => g.map (fun r => (r.model_id, h)) ++ m2cOfGroups rest

/-- `build_canonical_mapping`: sort, group by hash, take `group[0]` as
canonical, record the duplicate count, and map every member to its hash. -/
def build_canonical_mapping (rows : List CardRow) :
    List CanonEntry × List (String × String) :=
  let groups := groupByHash (pySorted rowLe rows)
  (groups.map (fun hg => ⟨hg.1, (hg.2.head?.map CardRow.model_id).getD "", hg.2.length⟩),
   m2cOfGroups groups)

/-- Association lookup in the group list. -/
def lookupG (h : String) : List (String × List CardRow) → Option (List CardRow)
  | [] => none
  | (h', g) :: rest => if h' = h then some g else lookupG h rest

/-! ## `apply_exclusion_rules` rule 1 (scripts/build_hf_rag_index.py, step A)

`UPDATE hf.model_cards SET excluded_from_rag = TRUE, exclusion_reason = 'No content'
 WHERE card_text = 'No model card found.' AND excluded_from_rag = FALSE`,
modelled as a per-row update over the table. -/

structure ModelCard where
  card_text : String
  token_count : Nat
  excluded_from_rag : Bool
  exclusion_reason : Option String
deriving DecidableEq, Repr

/-- The effect of the rule-1 `UPDATE` on one row. -/
def rule1Card (c : ModelCard) : ModelCard :=
  if c.card_text = "No model card found." ∧ c.excluded_from_rag = false then
    { c with excluded_from_rag := true, exclusion_reason := some "No content" }
  else c

/-- The rule-1 `UPDATE` applied to the whole table. -/
def applyRule1 (cards : List ModelCard) : List ModelCard := cards.map rule1Card

/-! ## Tokenizer, `normalize_text`, `extract_key_sections`
(scripts/build_hf_rag_index.py)

The tiktoken `cl100k_base` encoder is an external collaborator; it is
modelled as an explicit pair of functions.  `count_tokens` is
`len(self.encoder.encode(text))` (the source's `except` fallback to a word
count only fires when tiktoken itself throws, which the pure model cannot). -/

structure Tokenizer where
  encode : String → List Nat
  decode : List Nat → String

def count_tokens (tok : Tokenizer) (text : String) : Nat :=
  (tok.encode text).length

/-- `text.replace('\r\n', '\n').replace('\r', '\n')` in one pass. -/
def normNewlines : List Char → List Char
  | [] => []
  | '\r' :: '\n' :: rest => '\n' :: normNewlines rest
  | '\r' :: rest => '\n' :: normNewlines rest
  | c :: rest => c :: normNewlines rest

/-- Python `text.split('\n')` (on `'\n'`-free pieces; `""` splits to `[""]`,
a trailing newline yields a trailing empty piece). -/
def splitLines : List Char → List (List Char)
  | [] => [[]]
  | '\n' :: rest => [] :: splitLines rest
  | c :: rest =>
    match splitLines rest with
    | [] => [[c]]
    | l :: ls => (c :: l) :: ls

/-- Python `line.rstrip()`. -/
def rstripLine (l : List Char) : List Char :=
  (l.reverse.dropWhile Char.isWhitespace).reverse

/-- The blank-collapsing loop: runs of more than two consecutive blank
lines are collapsed to exactly two (`blank_count <= 2` keeps the line). -/
def collapseBlanks : List (List Char) → Nat → List (List Char)
  | [], _ => []
  | l :: ls, bc =>
    if l = [] then
      if bc + 1 ≤ 2 then l :: collapseBlanks ls (bc + 1)
      else collapseBlanks ls (bc + 1)
    else l :: collapseBlanks ls 0

/-- `normalize_text`: canonicalize line endings, strip trailing whitespace
per line, collapse blank-line runs, join with `'\n'`. -/
def normalize_text (text : String) : String :=
  String.mk (List.intercalate ['\n']
    (collapseBlanks ((splitLines (normNewlines text.data)).map rstripLine) 0))

/-- The section-extraction keyword list. -/
def kwList : List String :=
  ["description", "overview", "intended use", "how to use",
   "usage", "limitations", "license"]

/-- `re.match(r'^(#{1,4})\s+(.+)$', line)`, returning group 2: one to four
leading `#`, at least one whitespace, then a nonempty remainder.  When the
remainder after all whitespace is empty the regex backtracks and group 2 is
the last whitespace character. -/
def headingMatch14 (line : String) : Option String :=
  let cs := line.data
  let hashes := cs.takeWhile (fun c => c = '#')
  let rest := cs.dropWhile (fun c => c = '#')
  if 1 ≤ hashes.length ∧ hashes.length ≤ 4 then
    let ws := rest.takeWhile Char.isWhitespace
    let tl := rest.dropWhile Char.isWhitespace
    if ws.length = 0 then none
    else if tl ≠ [] then some (String.mk tl)
    else if 2 ≤ ws.length then some (String.mk [ws.getLastD ' '])
    else none
  else none

/-- `any(kw in (heading or '').lower() for kw in keywords)`. -/
def isKeyHeading (heading : Option String) : Bool :=
  kwList.any (fun kw => pyIn kw (pyLower (heading.getD "")))

structure MCSection where
  heading : Option String
  content : String
  sectionIsKey : Bool
deriving DecidableEq, Repr

/-- The line loop of `extract_key_sections`: start a new section at each
level 1-4 heading, else append the line to the current section; sections
carry their heading and key-classification, content is the joined lines
(heading line included). -/
def buildSections (lines : List String) (cur : List String)
    (ch : Option String) : List MCSection :=
  match lines with
  | [] =>
    if cur.isEmpty then []
    else [⟨ch, String.intercalate "\n" cur, isKeyHeading ch⟩]
  | line :: rest =>
    match headingMatch14 line with
    | some h2 =>
      if cur.isEmpty then buildSections rest [line] (some h2)
      else ⟨ch, String.intercalate "\n" cur, isKeyHeading ch⟩ ::
        buildSections rest [line] (some h2)
    | none => buildSections rest (cur ++ [line]) ch

/-- One greedy pass of `extract_key_sections`: add each section's content
while the running total stays within the budget; at the first section that
would exceed it, `break` — the rest of this pass's sections are dropped.
Returns the emitted contents and the final running total. -/
def addSections (tc : Tokenizer) (maxT : Nat) :
    List MCSection → Nat → List String × Nat
  | [], total => ([], total)
  | s :: rest, total =>
    let st := count_tokens tc s.content
    if total + st ≤ maxT then
      let r := addSections tc maxT rest (total + st)
      (s.content :: r.1, r.2)
    else ([], total)

/-- `extract_key_sections`: split into sections, key sections first then
other sections, each pass greedy under the shared running budget; fall back
to token truncation when the input is empty or the extraction comes out
blank. -/
def extract_key_sections (tok : Tokenizer) (text : String)
    (max_tokens : Nat) : String :=
  if text = "" then ""
  else
    let lines := (splitLines text.data).map String.mk
    let sections := buildSections lines [] none
    let keyS := sections.filter (fun s => s.sectionIsKey)
    let otherS := sections.filter (fun s => !s.sectionIsKey)
    let r1 := addSections tok max_tokens keyS 0
    let r2 := addSections tok max_tokens otherS r1.2
    let result := String.intercalate "\n\n" (r1.1 ++ r2.1)
    if pyStrip result = "" then tok.decode ((tok.encode text).take max_tokens)
    else result

/-- Total token count of a list of sections. -/
def sumTok (tc : Tokenizer) (l : List MCSection) : Nat :=
  (l.map (fun s => count_tokens tc s.content)).sum

/-- Tokenizer for the claim C7 counterexample: 300 tokens per character. -/
def ctTok : Tokenizer :=
  ⟨fun s => List.replicate (300 * s.data.length) 0, fun _ => ""⟩

/-- Text for the claim C7 counterexample: three key sections of 3000, 9300
and 3000 tokens under `ctTok`. -/
def ctText : String := "## usage a\n## usage bbbbbbbbbbbbbbbbbbbbbb\n## usage c"

/-! ## `_sliding_window_split` (scripts/build_hf_rag_index.py)

The source loop mutates `start`; with `overlap >= target` the variable
`start` stops advancing (or drifts negative), so the loop need not
terminate.  We model the loop with an explicit fuel counter: `none` means
the fuel ran out, and termination is the existence of sufficient fuel.
`start` is an integer, and Python's slice semantics (negative indices count
from the end, out-of-range indices clamp) are modelled by `pySlice`. -/

def pySlice (l : List Nat) (a b : ℤ) : List Nat :=
  let n : ℤ := l.length
  let a' : Nat := (if a < 0 then max (n + a) 0 else min a n).toNat
  let b' : Nat := (if b < 0 then max (n + b) 0 else min b n).toNat
  (l.take b').drop a'

def swRun (t o : Nat) (tokens : List Nat) :
    Nat → ℤ → List (List Nat) → Option (List (List Nat))
  | 0, _, _ => none
  | fuel + 1, start, acc =>
    if start < (tokens.length : ℤ) then
      let e : ℤ := min (start + (t : ℤ)) (tokens.length : ℤ)
      let chunk := pySlice tokens start e
      if (tokens.length : ℤ) ≤ e then some (acc ++ [chunk])
      else swRun t o tokens fuel (e - (o : ℤ)) (acc ++ [chunk])
    else some acc

/-- The token-window loop of `_sliding_window_split`, with enough fuel for
the terminating case (`overlap < target` advances `start` by at least one
token per iteration). -/
def sliding_window_tokens (t o : Nat) (tokens : List Nat) :
    Option (List (List Nat)) :=
  swRun t o tokens (tokens.length + 1) 0 []

/-- `_sliding_window_split`: encode, slide the window, decode each window
back to text. -/
def sliding_window_split (tok : Tokenizer) (t o : Nat) (text : String) :
    Option (List String) :=
  (sliding_window_tokens t o (tok.encode text)).map (List.map tok.decode)

/-- Loop termination as a proposition: some fuel suffices. -/
def SWTerminates (t o : Nat) (tokens : List Nat) : Prop :=
  ∃ fuel r, swRun t o tokens fuel 0 [] = some r

/-- The shape of the emitted windows: a window of (up to) `target` tokens
at `s`, the next window starting `target - overlap` further, the last
window reaching the end of the tokens. -/
inductive SWChunks (t o : Nat) (tokens : List Nat) : Nat → List (List Nat) → Prop where
  | last : ∀ s : Nat, tokens.length ≤ s + t →
      SWChunks t o tokens s [(tokens.drop s).take t]
  | step : ∀ (s : Nat) (rest : List (List Nat)), s + t < tokens.length →
      SWChunks t o tokens (s + t - o) rest →
      SWChunks t o tokens s (((tokens.drop s).take t) :: rest)

/-- The canonical-selection order in the claim's vocabulary: downloads
descending, then likes descending, then entity id ascending, missing
popularity metrics treated as zero. -/
def CanonClaimLe (a b : CardRow) : Prop :=
  rowDownloads b < rowDownloads a ∨ (rowDownloads a = rowDownloads b ∧
    (rowLikes b < rowLikes a ∨ (rowLikes a = rowLikes b ∧
      a.model_id.data ≤ b.model_id.data)))

/-! ## `chunk_text` (scripts/build_hf_rag_index.py)

The SHA-256 content hash is an external primitive, modelled as an explicit
function argument `hashf`.  `chunk_text` returns `Option`: `none` is the
non-terminating sliding-window loop (impossible under the source defaults,
claim C10). -/

structure ChunkConfig where
  chunk_target : Nat
  chunk_overlap : Nat
deriving DecidableEq, Repr

structure Chunk where
  chunk_hash : String
  card_hash : String
  chunk_index : Nat
  chunk_text : String
  token_count : Nat
deriving DecidableEq, Repr

/-- `re.match(r'^#{2,3}\s+', line)`: exactly two or three leading `#`
followed by at least one whitespace character. -/
def isH23 (line : String) : Bool :=
  let hs := line.data.takeWhile (fun c => c = '#')
  (hs.length = 2 || hs.length = 3) &&
    ((line.data.drop hs.length).head?.elim false Char.isWhitespace)

/-- The heading split of `chunk_text` (levels 2-3, content only). -/
def buildH23 (lines : List String) (cur : List String) : List String :=
  match lines with
  | [] => if cur.isEmpty then [] else [String.intercalate "\n" cur]
  | line :: rest =>
    if isH23 line then
      if cur.isEmpty then buildH23 rest [line]
      else String.intercalate "\n" cur :: buildH23 rest [line]
    else buildH23 rest (cur ++ [line])

/-- The inner loop over a too-large section's sliding-window sub-chunks,
assigning dense indices. -/
def subChunksFrom (hashf : String → String) (tok : Tokenizer)
    (card_hash : String) : Nat → List String → List Chunk
  | _, [] => []
  | idx, sc :: more =>
    ⟨hashf sc, card_hash, idx, sc, count_tokens tok sc⟩ ::
      subChunksFrom hashf tok card_hash (idx + 1) more

/-- The per-section loop of `chunk_text`: a section that fits the target is
one chunk; a too-large section is sliding-window split into sub-chunks;
indices are assigned densely in document order. -/
def chunkSections (hashf : String → String) (tok : Tokenizer)
    (cfg : ChunkConfig) (card_hash : String) :
    List String → Nat → Option (List Chunk)
  | [], _ => some []
  | s :: rest, idx =>
    let st := count_tokens tok s
    if st ≤ cfg.chunk_target then
      (chunkSections hashf tok cfg card_hash rest (idx + 1)).map
        (fun cs => ⟨hashf s, card_hash, idx, s, st⟩ :: cs)
    else
      match sliding_window_split tok cfg.chunk_target cfg.chunk_overlap s with
      | none => none
      | some subs =>
        (chunkSections hashf tok cfg card_hash rest (idx + subs.length)).map
          (fun cs => subChunksFrom hashf tok card_hash idx subs ++ cs)

/-- `chunk_text`: normalize; for large cards (10k-100k tokens) extract key
sections under the 12,000-token budget (with truncation fallback when the
extraction comes out blank) and recount; a card within the target is a
single chunk with index 0; otherwise split at level 2-3 headings, falling
back to the sliding window when at most one section is found, and chunk
each section. -/
def chunk_text (hashf : String → String) (tok : Tokenizer) (cfg : ChunkConfig)
    (text card_hash : String) (token_count : Nat) : Option (List Chunk) :=
  let normalized0 := normalize_text text
  let nt :=
    if 10000 ≤ token_count ∧ token_count ≤ 100000 then
      let extracted := extract_key_sections tok normalized0 12000
      let n2 := if pyStrip extracted = "" then
          tok.decode ((tok.encode normalized0).take 12000)
        else extracted
      (n2, count_tokens tok n2)
    else (normalized0, token_count)
  if nt.2 ≤ cfg.chunk_target then
    some [⟨hashf nt.1, card_hash, 0, nt.1, nt.2⟩]
  else
    let sections := buildH23 ((splitLines nt.1.data).map String.mk) []
    match (if sections.length ≤ 1 then
        sliding_window_split tok cfg.chunk_target cfg.chunk_overlap nt.1
      else some sections) with
    | none => none
    | some secs => chunkSections hashf tok cfg card_hash secs 0

theorem insertLe_perm (le : α → α → Bool) (x : α) (l : List α) :
    List.Perm (insertLe le x l) (x :: l) := by
  induction l with
  | nil => simp [insertLe]
  | cons y ys ih =>
    by_cases h : le x y = true
    · simp [insertLe, h]
    · simp only [insertLe, h, if_false, Bool.false_eq_true]
      exact (ih.cons y).trans (List.Perm.swap x y ys)

theorem pySorted_perm (le : α → α → Bool) (l : List α) :
    List.Perm (pySorted le l) l := by
  induction l with
  | nil => exact List.Perm.refl _
  | cons x xs ih =>
    exact (insertLe_perm le x (pySorted le xs)).trans (ih.cons x)

theorem mem_insertLe (le : α → α → Bool) (x a : α) (l : List α) :
    a ∈ insertLe le x l ↔ a = x ∨ a ∈ l := by
  have := (insertLe_perm le x l).mem_iff (a := a)
  simpa using this

theorem mem_pySorted (le : α → α → Bool) (a : α) (l : List α) :
    a ∈ pySorted le l ↔ a ∈ l :=
  (pySorted_perm le l).mem_iff

theorem pairwise_insertLe (le : α → α → Bool)
    (htot : ∀ a b, le a b = true ∨ le b a = true)
    (htrans : ∀ a b c, le a b = true → le b c = true → le a c = true)
    (x : α) (l : List α) (hl : l.Pairwise (fun a b => le a b = true)) :
    (insertLe le x l).Pairwise (fun a b => le a b = true) := by
  induction l with
  | nil => simp [insertLe]
  | cons y ys ih =>
    rcases hl with _ | ⟨hy, hys⟩
    by_cases h : le x y = true
    · simp only [insertLe, h, if_true]
      refine List.Pairwise.cons ?_ (List.Pairwise.cons hy hys)
      intro z hz
      rcases List.mem_cons.1 hz with rfl | hz'
      · exact h
      · exact htrans x y z h (hy z hz')
    · simp only [insertLe, h, if_false, Bool.false_eq_true]
      refine List.Pairwise.cons ?_ (ih hys)
      intro z hz
      rcases (mem_insertLe le x z ys).1 hz with rfl | hz
      · rcases htot z y with h' | h'
        · exact absurd h' h
        · exact h'
      · exact hy z hz

theorem pairwise_pySorted (le : α → α → Bool)
    (htot : ∀ a b, le a b = true ∨ le b a = true)
    (htrans : ∀ a b c, le a b = true → le b c = true → le a c = true)
    (l : List α) :
    (pySorted le l).Pairwise (fun a b => le a b = true) := by
  induction l with
  | nil => simp [pySorted]
  | cons x xs ih => exact pairwise_insertLe le htot htrans x _ ih

theorem baseLe_total [LinearOrder α] (x y : α) :
    baseLe x y = true ∨ baseLe y x = true := by
  simp only [baseLe, decide_eq_true_eq]
  exact le_total x y

theorem baseLe_trans [LinearOrder α] (x y z : α) :
    baseLe x y = true → baseLe y z = true → baseLe x z = true := by
  simp only [baseLe, decide_eq_true_eq]
  exact le_trans

theorem baseLe_eq_true_iff [LinearOrder α] (x y : α) :
    baseLe x y = true ↔ x ≤ y := by
  simp [baseLe]

theorem prodLe_eq_true_iff [LinearOrder α] (leB : β → β → Bool) (x y : α × β) :
    prodLe leB x y = true ↔ x.1 < y.1 ∨ (x.1 = y.1 ∧ leB x.2 y.2 = true) := by
  unfold prodLe
  split
  · simp_all
  · split <;> simp_all

theorem prodLe_total [LinearOrder α] (leB : β → β → Bool)
    (htot : ∀ a b, leB a b = true ∨ leB b a = true) (x y : α × β) :
    prodLe leB x y = true ∨ prodLe leB y x = true := by
  simp only [prodLe_eq_true_iff]
  rcases lt_trichotomy x.1 y.1 with h | h | h
  · exact Or.inl (Or.inl h)
  · rcases htot x.2 y.2 with h2 | h2
    · exact Or.inl (Or.inr ⟨h, h2⟩)
    · exact Or.inr (Or.inr ⟨h.symm, h2⟩)
  · exact Or.inr (Or.inl h)

theorem prodLe_trans [LinearOrder α] (leB : β → β → Bool)
    (htrans : ∀ a b c, leB a b = true → leB b c = true → leB a c = true)
    (x y z : α × β) :
    prodLe leB x y = true → prodLe leB y z = true → prodLe leB x z = true := by
  simp only [prodLe_eq_true_iff]
  rintro (h1 | ⟨he1, h1⟩) (h2 | ⟨he2, h2⟩)
  · exact Or.inl (h1.trans h2)
  · exact Or.inl (he2 ▸ h1)
  · exact Or.inl (he1 ▸ h2)
  · exact Or.inr ⟨he1.trans he2, htrans _ _ _ h1 h2⟩

theorem withRanksFrom_map_item (i : Nat) (l : List α) :
    (withRanksFrom i l).map Ranked.item = l := by
  induction l generalizing i with
  | nil => rfl
  | cons x xs ih => simp [withRanksFrom, ih]

theorem withRanksFrom_map_rank (i : Nat) (l : List α) :
    (withRanksFrom i l).map Ranked.rank = List.range' i l.length := by
  induction l generalizing i with
  | nil => rfl
  | cons x xs ih => simp [withRanksFrom, ih, List.range']

theorem withRanks_map_item (l : List α) : (withRanks l).map Ranked.item = l :=
  withRanksFrom_map_item 1 l

theorem withRanks_map_rank (l : List α) :
    (withRanks l).map Ranked.rank = List.range' 1 l.length :=
  withRanksFrom_map_rank 1 l

theorem instLe_total (a b : Inst) : instLe a b = true ∨ instLe b a = true := by
  unfold instLe
  apply prodLe_total
  intro x y
  apply prodLe_total
  intro x y
  apply prodLe_total
  intro x y
  apply prodLe_total
  exact baseLe_total

theorem instLe_trans (a b c : Inst) :
    instLe a b = true → instLe b c = true → instLe a c = true := by
  unfold instLe
  apply prodLe_trans
  intro x y z
  apply prodLe_trans
  intro x y z
  apply prodLe_trans
  intro x y z
  apply prodLe_trans
  exact baseLe_trans

theorem instLe_iff (a b : Inst) : instLe a b = true ↔ InstClaimLe a b := by
  simp only [instLe, instSortKey, prodLe_eq_true_iff, baseLe_eq_true_iff,
    InstClaimLe, neg_lt_neg_iff, neg_inj]

/-- Claim C3, counterexample.  The claim says `rank_compute_instances` sorts
ascending by monthly price, only a *missing* price being replaced by the
sentinel.  But `inst.get('price_monthly') or 999999` also replaces a present
price of `0` (falsy in Python) by the sentinel: an instance priced 0 is
ranked below an instance priced 100, although 0 < 100. -/
theorem C3_counterexample :
    rank_compute_instances
      [⟨some 0, some 1, some 1, "aws", "a"⟩, ⟨some 100, some 1, some 1, "aws", "b"⟩]
      = [⟨⟨some 100, some 1, some 1, "aws", "b"⟩, 1⟩,
         ⟨⟨some 0, some 1, some 1, "aws", "a"⟩, 2⟩] ∧
    (0 : ℚ) < 100 := by
  constructor
  · decide
  · norm_num

/-- Claim C3, amended: `rank_compute_instances` sorts ascending by monthly
price with a missing *or zero* price treated as the very large sentinel
999999, then descending by GPU memory, then descending by GPU count, then
ascending by provider name, then ascending by instance name, and annotates
the sorted list with dense 1-based ranks; in particular, of two instances
both priced 100, the one with GPU memory 80 precedes the one with GPU
memory 40. -/
theorem C3_rank_compute_instances :
    (∀ instances : List Inst,
        ((rank_compute_instances instances).map Ranked.item).Pairwise InstClaimLe ∧
        List.Perm ((rank_compute_instances instances).map Ranked.item) instances ∧
        (rank_compute_instances instances).map Ranked.rank =
          List.range' 1 instances.length) ∧
    rank_compute_instances
      [⟨some 100, some 40, some 2, "aws", "b"⟩, ⟨some 100, some 80, some 1, "aws", "a"⟩]
      = [⟨⟨some 100, some 80, some 1, "aws", "a"⟩, 1⟩,
         ⟨⟨some 100, some 40, some 2, "aws", "b"⟩, 2⟩] := by
  constructor
  · intro instances
    refine ⟨?_, ?_, ?_⟩
    · rw [rank_compute_instances, withRanks_map_item]
      exact (pairwise_pySorted instLe instLe_total instLe_trans instances).imp
        (fun h => (instLe_iff _ _).1 h)
    · rw [rank_compute_instances, withRanks_map_item]
      exact pySorted_perm _ _
    · rw [rank_compute_instances, withRanks_map_rank,
        (pySorted_perm instLe instances).length_eq]
  · decide

theorem pkgLe_total (ql : String) (a b : Pkg) :
    pkgLe ql a b = true ∨ pkgLe ql b a = true := by
  unfold pkgLe
  apply prodLe_total
  intro x y
  apply prodLe_total
  intro x y
  apply prodLe_total
  exact baseLe_total

theorem pkgLe_trans (ql : String) (a b c : Pkg) :
    pkgLe ql a b = true → pkgLe ql b c = true → pkgLe ql a c = true := by
  unfold pkgLe
  apply prodLe_trans
  intro x y z
  apply prodLe_trans
  intro x y z
  apply prodLe_trans
  exact baseLe_trans

theorem pkgLe_iff (ql : String) (a b : Pkg) :
    pkgLe ql a b = true ↔ PkgClaimLe ql a b := by
  simp only [pkgLe, pkgSortKey, prodLe_eq_true_iff, baseLe_eq_true_iff,
    PkgClaimLe, neg_lt_neg_iff, neg_inj, Nat.cast_lt, Nat.cast_inj,
    eq_comm (a := pkgMatchScore ql a)]

/-- Claim C4, counterexample.  The claim's final tie-break is "name
ascending", but the code sorts by the *lowercased* name: for two otherwise
tied packages named "B" and "a", the code ranks "a" first although
"B" < "a" in the raw string order the claim describes. -/
theorem C4_counterexample :
    rank_k8s_packages
      [⟨some "B", none, some 1, false⟩, ⟨some "a", none, some 1, false⟩] "q"
      = [⟨⟨some "a", none, some 1, false⟩, 1⟩,
         ⟨⟨some "B", none, some 1, false⟩, 2⟩] ∧
    ("B" : String).data < ("a" : String).data := by
  constructor
  · decide
  · decide

/-- Claim C4, amended: `rank_k8s_packages` scores each candidate into one of
five discrete match tiers against the lowered, stripped query (exact name
match 1000 > name starts with query 900 > query substring of name 800 >
query substring of description 700 > no match 0, compared case-insensitively)
and sorts by match tier descending, then star count descending, then
official flag descending (official first), then **lowercased** name
ascending, annotating with dense 1-based ranks; in particular, for query
"mlflow", a package named "mlflow" with 10 stars ranks above a package named
"mlflow-operator" with 500 stars. -/
theorem C4_rank_k8s_packages :
    (∀ (packages : List Pkg) (query : String),
        ((rank_k8s_packages packages query).map Ranked.item).Pairwise
          (PkgClaimLe (pyStrip (pyLower query))) ∧
        List.Perm ((rank_k8s_packages packages query).map Ranked.item) packages ∧
        (rank_k8s_packages packages query).map Ranked.rank =
          List.range' 1 packages.length) ∧
    rank_k8s_packages
      [⟨some "mlflow", none, some 10, false⟩,
       ⟨some "mlflow-operator", none, some 500, false⟩] "mlflow"
      = [⟨⟨some "mlflow", none, some 10, false⟩, 1⟩,
         ⟨⟨some "mlflow-operator", none, some 500, false⟩, 2⟩] := by
  constructor
  · intro packages query
    refine ⟨?_, ?_, ?_⟩
    · rw [rank_k8s_packages, withRanks_map_item]
      exact (pairwise_pySorted _ (pkgLe_total _) (pkgLe_trans _) packages).imp
        (fun h => (pkgLe_iff _ _ _).1 h)
    · rw [rank_k8s_packages, withRanks_map_item]
      exact pySorted_perm _ _
    · rw [rank_k8s_packages, withRanks_map_rank,
        (pySorted_perm (pkgLe (pyStrip (pyLower query))) packages).length_eq]
  · decide

theorem hfLe_total (a b : HFScored) : hfLe a b = true ∨ hfLe b a = true := by
  unfold hfLe
  apply prodLe_total
  exact baseLe_total

theorem hfLe_trans (a b c : HFScored) :
    hfLe a b = true → hfLe b c = true → hfLe a c = true := by
  unfold hfLe
  apply prodLe_trans
  exact baseLe_trans

theorem hfMaxPop_init (models : List HFModel) :
    ∀ b : ℝ, b ≤ models.foldl (fun acc m => max acc (hfPopularity m)) b := by
  induction models with
  | nil => intro b; simp
  | cons m ms ih =>
    intro b
    calc b ≤ max b (hfPopularity m) := le_max_left _ _
    _ ≤ ms.foldl (fun acc m => max acc (hfPopularity m)) (max b (hfPopularity m)) :=
      ih _

theorem le_hfMaxPop (models : List HFModel) :
    ∀ m ∈ models, hfPopularity m ≤ hfMaxPop models := by
  rw [hfMaxPop]
  generalize (0 : ℝ) = b
  induction models generalizing b with
  | nil => simp
  | cons x xs ih =>
    intro m hm
    rcases List.mem_cons.1 hm with rfl | hm
    · calc hfPopularity m ≤ max b (hfPopularity m) := le_max_right _ _
      _ ≤ _ := hfMaxPop_init xs _
    · exact ih _ m hm

theorem hfMaxPop_cases (models : List HFModel) :
    hfMaxPop models = 0 ∨ ∃ m ∈ models, hfMaxPop models = hfPopularity m := by
  rw [hfMaxPop]
  generalize hb : (0 : ℝ) = b
  have : ∀ (l : List HFModel) (b : ℝ),
      l.foldl (fun acc m => max acc (hfPopularity m)) b = b ∨
        ∃ m ∈ l, l.foldl (fun acc m => max acc (hfPopularity m)) b = hfPopularity m := by
    intro l
    induction l with
    | nil => intro b; simp
    | cons x xs ih =>
      intro b
      rcases ih (max b (hfPopularity x)) with h | ⟨m, hm, h⟩
      · rcases max_choice b (hfPopularity x) with hmx | hmx
        · left
          simpa [hmx] using h
        · right
          exact ⟨x, List.mem_cons_self _ _, by simpa [hmx] using h⟩
      · right
        exact ⟨m, List.mem_cons_of_mem _ hm, h⟩
  rcases this models b with h | ⟨m, hm, h⟩
  · left
    exact h
  · right
    exact ⟨m, hm, h⟩

theorem hfLe_iff (a b : HFScored) :
    hfLe a b = true ↔
      (b.sortCombined < a.sortCombined ∨
        (a.sortCombined = b.sortCombined ∧
          a.base.model_id.data ≤ b.base.model_id.data)) := by
  simp only [hfLe, prodLe_eq_true_iff, baseLe_eq_true_iff, neg_lt_neg_iff,
    neg_inj]

/-- Claim C2: `rank_hf_models` computes a popularity per candidate equal to
ln(downloads+1) + ln(likes+1) (missing counts as 0), normalizes it by the
maximum popularity in the list (0 for all when the maximum is 0, the `if`
in `hfNormPop`), computes combined = 0.6 x relevance (default 0.5 when
missing) + 0.4 x normalized popularity, sorts descending by the combined
score with ties broken by model id ascending, rounds the relevance and
combined scores in the output to 4 decimal places, and annotates dense
1-based ranks.  In particular, for two candidates with relevance 0.9 /
normalized popularity 0.1 and relevance 0.1 / normalized popularity 0.9
(realized by download counts 1, 511 next to a maximal candidate with 1023),
the combined scores are 0.58 and 0.42 and the first ranks above the
second. -/
theorem C2_rank_hf_models :
    (∀ (models : List HFModel) (rels : String → Option ℝ),
      (∀ m ∈ models,
        Real.log ((m.downloads.getD 0 : ℕ) + 1) +
          Real.log ((m.likes.getD 0 : ℕ) + 1) ≤ hfMaxPop models) ∧
      (hfMaxPop models = 0 ∨ ∃ m ∈ models, hfMaxPop models = hfPopularity m) ∧
      List.Perm ((rank_hf_models models rels).map Ranked.item)
        (models.map (fun m =>
          ⟨m, round4 ((rels m.model_id).getD 0.5),
            round4 (0.6 * (rels m.model_id).getD 0.5 +
              0.4 * hfNormPop (hfMaxPop models) m)⟩)) ∧
      (∃ l : List HFScored,
        rank_hf_models models rels = withRanks (l.map hfCleanup) ∧
        List.Perm l (models.map (hfAnnotate rels (hfMaxPop models))) ∧
        (∀ s ∈ l, s.sortCombined =
          0.6 * (rels s.base.model_id).getD 0.5 +
            0.4 * hfNormPop (hfMaxPop models) s.base) ∧
        l.Pairwise (fun a b => b.sortCombined < a.sortCombined ∨
          (a.sortCombined = b.sortCombined ∧
            a.base.model_id.data ≤ b.base.model_id.data))) ∧
      (rank_hf_models models rels).map Ranked.rank =
        List.range' 1 models.length) ∧
    (hfNormPop (hfMaxPop [⟨"a", some 1, some 0⟩, ⟨"c", some 511, some 0⟩, ⟨"b", some 1023, some 0⟩]) ⟨"a", some 1, some 0⟩ = 0.1 ∧
     hfNormPop (hfMaxPop [⟨"a", some 1, some 0⟩, ⟨"c", some 511, some 0⟩, ⟨"b", some 1023, some 0⟩]) ⟨"c", some 511, some 0⟩ = 0.9 ∧
     rank_hf_models [⟨"a", some 1, some 0⟩, ⟨"c", some 511, some 0⟩, ⟨"b", some 1023, some 0⟩] (fun s => if s = "a" then some 0.9 else if s = "c" then some 0.1 else some 0)
      = [⟨⟨⟨"a", some 1, some 0⟩, 0.9, 0.58⟩, 1⟩,
         ⟨⟨⟨"c", some 511, some 0⟩, 0.1, 0.42⟩, 2⟩,
         ⟨⟨⟨"b", some 1023, some 0⟩, 0, 0.4⟩, 3⟩]) := by
  constructor
  · intro models rels
    refine ⟨?_, hfMaxPop_cases models, ?_, ?_, ?_⟩
    · intro m hm
      simpa [hfPopularity] using le_hfMaxPop models m hm
    · have h1 : (rank_hf_models models rels).map Ranked.item =
          (pySorted hfLe (models.map (hfAnnotate rels (hfMaxPop models)))).map
            hfCleanup := by
        rw [rank_hf_models, withRanks_map_item]
      rw [h1]
      refine ((pySorted_perm hfLe _).map hfCleanup).trans ?_
      rw [List.map_map]
      have hfun : ∀ m : HFModel,
          hfCleanup (hfAnnotate rels (hfMaxPop models) m) =
            (⟨m, round4 ((rels m.model_id).getD 0.5),
              round4 (0.6 * (rels m.model_id).getD 0.5 +
                0.4 * hfNormPop (hfMaxPop models) m)⟩ : HFOut) := by
        intro m
        simp [hfCleanup, hfAnnotate, hfCombined, hfRelevance]
      rw [show (hfCleanup ∘ hfAnnotate rels (hfMaxPop models))
          = (fun m => (⟨m, round4 ((rels m.model_id).getD 0.5),
              round4 (0.6 * (rels m.model_id).getD 0.5 +
                0.4 * hfNormPop (hfMaxPop models) m)⟩ : HFOut)) from
        funext hfun]
    · refine ⟨pySorted hfLe (models.map (hfAnnotate rels (hfMaxPop models))),
        rfl, pySorted_perm _ _, ?_, ?_⟩
      · intro s hs
        have hs' : s ∈ models.map (hfAnnotate rels (hfMaxPop models)) :=
          (mem_pySorted _ _ _).1 hs
        obtain ⟨m, _, rfl⟩ := List.mem_map.1 hs'
        simp [hfAnnotate, hfCombined, hfRelevance]
      · exact (pairwise_pySorted hfLe hfLe_total hfLe_trans _).imp
          (fun h => (hfLe_iff _ _).1 h)
    · rw [rank_hf_models, withRanks_map_rank]
      rw [List.length_map, (pySorted_perm hfLe _).length_eq, List.length_map]
  ·
    have hlog2pos : 0 < Real.log 2 := Real.log_pos (by norm_num)
    have hpa : hfPopularity ⟨"a", some 1, some 0⟩ = Real.log 2 := by
      simp [hfPopularity]
      norm_num [Real.log_one]
    have hpc : hfPopularity ⟨"c", some 511, some 0⟩ = 9 * Real.log 2 := by
      simp only [hfPopularity, Option.getD]
      push_cast
      rw [show (511 : ℝ) + 1 = 2 ^ 9 by norm_num, Real.log_pow]
      norm_num [Real.log_one]
    have hpb : hfPopularity ⟨"b", some 1023, some 0⟩ = 10 * Real.log 2 := by
      simp only [hfPopularity, Option.getD]
      push_cast
      rw [show (1023 : ℝ) + 1 = 2 ^ 10 by norm_num, Real.log_pow]
      norm_num [Real.log_one]
    have m1 : max (0 : ℝ) (Real.log 2) = Real.log 2 := max_eq_right hlog2pos.le
    have m2 : max (Real.log 2) (9 * Real.log 2) = 9 * Real.log 2 :=
      max_eq_right (by nlinarith)
    have m3 : max (9 * Real.log 2) (10 * Real.log 2) = 10 * Real.log 2 :=
      max_eq_right (by nlinarith)
    have hmax : hfMaxPop
        [⟨"a", some 1, some 0⟩, ⟨"c", some 511, some 0⟩, ⟨"b", some 1023, some 0⟩]
        = 10 * Real.log 2 := by
      simp only [hfMaxPop, List.foldl, hpa, hpc, hpb, m1, m2, m3]
    have hl2ne : Real.log 2 ≠ 0 := ne_of_gt hlog2pos
    have hnA : hfNormPop (10 * Real.log 2) ⟨"a", some 1, some 0⟩ = 0.1 := by
      rw [hfNormPop, if_pos (by nlinarith), hpa]
      rw [show (0.1 : ℝ) = 1 / 10 by norm_num]
      field_simp
      ring
    have hnC : hfNormPop (10 * Real.log 2) ⟨"c", some 511, some 0⟩ = 0.9 := by
      rw [hfNormPop, if_pos (by nlinarith), hpc]
      rw [show (0.9 : ℝ) = 9 / 10 by norm_num]
      field_simp
      ring
    have hnB : hfNormPop (10 * Real.log 2) ⟨"b", some 1023, some 0⟩ = 1 := by
      rw [hfNormPop, if_pos (by nlinarith), hpb]
      field_simp
    have hr09 : round4 (0.9 : ℝ) = 0.9 := by
      rw [round4, show (0.9 : ℝ) * 10000 = ((9000 : ℤ) : ℝ) by norm_num, round_intCast]
      norm_num
    have hr058 : round4 (0.58 : ℝ) = 0.58 := by
      rw [round4, show (0.58 : ℝ) * 10000 = ((5800 : ℤ) : ℝ) by norm_num, round_intCast]
      norm_num
    have hr01 : round4 (0.1 : ℝ) = 0.1 := by
      rw [round4, show (0.1 : ℝ) * 10000 = ((1000 : ℤ) : ℝ) by norm_num, round_intCast]
      norm_num
    have hr042 : round4 (0.42 : ℝ) = 0.42 := by
      rw [round4, show (0.42 : ℝ) * 10000 = ((4200 : ℤ) : ℝ) by norm_num, round_intCast]
      norm_num
    have hr0 : round4 (0 : ℝ) = 0 := by
      rw [round4]
      norm_num
    have hr04 : round4 (0.4 : ℝ) = 0.4 := by
      rw [round4, show (0.4 : ℝ) * 10000 = ((4000 : ℤ) : ℝ) by norm_num, round_intCast]
      norm_num
    have hrelA : hfRelevance
        (fun s => if s = "a" then some 0.9 else if s = "c" then some 0.1 else some 0)
        ⟨"a", some 1, some 0⟩ = 0.9 := by
      simp [hfRelevance]
    have hrelC : hfRelevance
        (fun s => if s = "a" then some 0.9 else if s = "c" then some 0.1 else some 0)
        ⟨"c", some 511, some 0⟩ = 0.1 := by
      simp [hfRelevance]
    have hrelB : hfRelevance
        (fun s => if s = "a" then some 0.9 else if s = "c" then some 0.1 else some 0)
        ⟨"b", some 1023, some 0⟩ = 0 := by
      simp [hfRelevance]
    have hcA : hfCombined
        (fun s => if s = "a" then some 0.9 else if s = "c" then some 0.1 else some 0)
        (10 * Real.log 2) ⟨"a", some 1, some 0⟩ = 0.58 := by
      rw [hfCombined, hrelA, hnA]
      norm_num
    have hcC : hfCombined
        (fun s => if s = "a" then some 0.9 else if s = "c" then some 0.1 else some 0)
        (10 * Real.log 2) ⟨"c", some 511, some 0⟩ = 0.42 := by
      rw [hfCombined, hrelC, hnC]
      norm_num
    have hcB : hfCombined
        (fun s => if s = "a" then some 0.9 else if s = "c" then some 0.1 else some 0)
        (10 * Real.log 2) ⟨"b", some 1023, some 0⟩ = 0.4 := by
      rw [hfCombined, hrelB, hnB]
      norm_num
    have hAa : hfAnnotate
        (fun s => if s = "a" then some 0.9 else if s = "c" then some 0.1 else some 0)
        (10 * Real.log 2) ⟨"a", some 1, some 0⟩
        = ⟨⟨"a", some 1, some 0⟩, 0.9, 0.58, 0.58⟩ := by
      rw [hfAnnotate, hrelA, hcA, hr09, hr058]
    have hAc : hfAnnotate
        (fun s => if s = "a" then some 0.9 else if s = "c" then some 0.1 else some 0)
        (10 * Real.log 2) ⟨"c", some 511, some 0⟩
        = ⟨⟨"c", some 511, some 0⟩, 0.1, 0.42, 0.42⟩ := by
      rw [hfAnnotate, hrelC, hcC, hr01, hr042]
    have hAb : hfAnnotate
        (fun s => if s = "a" then some 0.9 else if s = "c" then some 0.1 else some 0)
        (10 * Real.log 2) ⟨"b", some 1023, some 0⟩
        = ⟨⟨"b", some 1023, some 0⟩, 0, 0.4, 0.4⟩ := by
      rw [hfAnnotate, hrelB, hcB, hr0, hr04]
    have hannot : [(⟨"a", some 1, some 0⟩ : HFModel), ⟨"c", some 511, some 0⟩,
          ⟨"b", some 1023, some 0⟩].map
        (hfAnnotate
          (fun s => if s = "a" then some 0.9 else if s = "c" then some 0.1 else some 0)
          (hfMaxPop [⟨"a", some 1, some 0⟩, ⟨"c", some 511, some 0⟩,
            ⟨"b", some 1023, some 0⟩]))
        = [⟨⟨"a", some 1, some 0⟩, 0.9, 0.58, 0.58⟩,
           ⟨⟨"c", some 511, some 0⟩, 0.1, 0.42, 0.42⟩,
           ⟨⟨"b", some 1023, some 0⟩, 0, 0.4, 0.4⟩] := by
      rw [hmax]
      simp only [List.map]
      rw [hAa, hAc, hAb]
    have hle1 : hfLe ⟨⟨"c", some 511, some 0⟩, 0.1, 0.42, 0.42⟩
        ⟨⟨"b", some 1023, some 0⟩, 0, 0.4, 0.4⟩ = true := by
      rw [hfLe, prodLe_eq_true_iff]
      left
      norm_num
    have hle2 : hfLe ⟨⟨"a", some 1, some 0⟩, 0.9, 0.58, 0.58⟩
        ⟨⟨"c", some 511, some 0⟩, 0.1, 0.42, 0.42⟩ = true := by
      rw [hfLe, prodLe_eq_true_iff]
      left
      norm_num
    have hsort : pySorted hfLe
        [⟨⟨"a", some 1, some 0⟩, 0.9, 0.58, 0.58⟩,
         ⟨⟨"c", some 511, some 0⟩, 0.1, 0.42, 0.42⟩,
         ⟨⟨"b", some 1023, some 0⟩, 0, 0.4, 0.4⟩]
        = [⟨⟨"a", some 1, some 0⟩, 0.9, 0.58, 0.58⟩,
           ⟨⟨"c", some 511, some 0⟩, 0.1, 0.42, 0.42⟩,
           ⟨⟨"b", some 1023, some 0⟩, 0, 0.4, 0.4⟩] := by
      simp [pySorted, insertLe, hle1, hle2]
    refine ⟨by rw [hmax]; exact hnA, by rw [hmax]; exact hnC, ?_⟩
    rw [rank_hf_models, hannot, hsort]
    simp [withRanks, withRanksFrom, hfCleanup]

/-- Claim C9, counterexample.  The claim says the empty-search result's
metadata reports "the requested top_k"; but `top_k or settings.hf_top_k`
also replaces a requested `top_k = 0` (falsy) by the configured default:
with the default settings (hf_top_k = 5) and a request of 0, the metadata
reports 5, not 0. -/
theorem C9_counterexample :
    (search_hf_models ⟨5, 20, "text-embedding-3-small", "hf_chunker_v1"⟩
      [] [] "q" none none (some 0)).metadata.top_k = 5 ∧ (5 : Nat) ≠ 0 := by
  constructor
  · rfl
  · decide

/-- Claim C9, amended: if the chunk similarity search returns no rows,
`search_hf_models` returns a normal result whose results list is empty and
whose metadata reports total_found = 0, the effective top_k (the requested
top_k, with a missing or zero request replaced by the configured default)
and the echoed query — it does not raise. -/
theorem C9_search_hf_models_empty (settings : HFSettings)
    (card_scores : List CardScore) (models : List HFModelRow) (query : String)
    (pipeline_tag : Option String) (license_filter : Option (List String))
    (top_k : Option Nat) (hempty : card_scores = []) :
    (search_hf_models settings card_scores models query pipeline_tag
        license_filter top_k).results = [] ∧
    (search_hf_models settings card_scores models query pipeline_tag
        license_filter top_k).metadata.total_found = 0 ∧
    (search_hf_models settings card_scores models query pipeline_tag
        license_filter top_k).metadata.top_k = effectiveTopK settings top_k ∧
    (search_hf_models settings card_scores models query pipeline_tag
        license_filter top_k).metadata.query = query ∧
    (search_hf_models settings card_scores models query pipeline_tag
        license_filter top_k).metadata.embedding_model =
      settings.hf_embedding_model_name := by
  subst hempty
  refine ⟨rfl, rfl, rfl, rfl, rfl⟩

/-- Witness for the amended claim C9 at concrete inputs. -/
theorem C9_search_hf_models_empty_witness :
    ([] : List CardScore) = [] ∧
    ((search_hf_models ⟨5, 20, "text-embedding-3-small", "hf_chunker_v1"⟩
        [] [] "find me a model" none none (some 3)).results = [] ∧
      (search_hf_models ⟨5, 20, "text-embedding-3-small", "hf_chunker_v1"⟩
        [] [] "find me a model" none none (some 3)).metadata.total_found = 0 ∧
      (search_hf_models ⟨5, 20, "text-embedding-3-small", "hf_chunker_v1"⟩
        [] [] "find me a model" none none (some 3)).metadata.top_k =
        effectiveTopK ⟨5, 20, "text-embedding-3-small", "hf_chunker_v1"⟩ (some 3) ∧
      (search_hf_models ⟨5, 20, "text-embedding-3-small", "hf_chunker_v1"⟩
        [] [] "find me a model" none none (some 3)).metadata.query =
        "find me a model" ∧
      (search_hf_models ⟨5, 20, "text-embedding-3-small", "hf_chunker_v1"⟩
        [] [] "find me a model" none none (some 3)).metadata.embedding_model =
        "text-embedding-3-small") :=
  ⟨rfl, C9_search_hf_models_empty ⟨5, 20, "text-embedding-3-small", "hf_chunker_v1"⟩
    [] [] "find me a model" none none (some 3) rfl⟩

theorem rowLe_total (a b : CardRow) : rowLe a b = true ∨ rowLe b a = true := by
  unfold rowLe
  apply prodLe_total
  intro x y
  apply prodLe_total
  intro x y
  apply prodLe_total
  exact baseLe_total

theorem rowLe_trans (a b c : CardRow) :
    rowLe a b = true → rowLe b c = true → rowLe a c = true := by
  unfold rowLe
  apply prodLe_trans
  intro x y z
  apply prodLe_trans
  intro x y z
  apply prodLe_trans
  exact baseLe_trans

theorem lookupG_addToGroups (gs : List (String × List CardRow)) (r : CardRow)
    (h : String) :
    lookupG h (addToGroups gs r) =
      if r.card_hash = h then some ((lookupG h gs).getD [] ++ [r])
      else lookupG h gs := by
  induction gs with
  | nil =>
    by_cases hh : r.card_hash = h <;> simp [addToGroups, lookupG, hh]
  | cons p rest ih =>
    obtain ⟨h', g⟩ := p
    by_cases h1 : h' = r.card_hash
    · by_cases h2 : r.card_hash = h
      · simp [addToGroups, lookupG, h1, h2, h1.trans h2]
      · have h3 : ¬ h' = h := fun he => h2 (h1.symm.trans he)
        simp [addToGroups, lookupG, h1, h2, h3]
    · by_cases h2 : h' = h
      · subst h2
        have h3 : ¬ r.card_hash = h' := fun he => h1 he.symm
        have h4 : ¬ h' = r.card_hash := h1
        simp [addToGroups, lookupG, h3, h4]
      · simp [addToGroups, lookupG, h1, h2, ih]

theorem lookupG_groupByHash_aux (rows : List CardRow)
    (gs : List (String × List CardRow)) (h : String) :
    lookupG h (rows.foldl addToGroups gs) =
      if lookupG h gs = none ∧ rows.filter (fun r => r.card_hash = h) = [] then none
      else some ((lookupG h gs).getD [] ++ rows.filter (fun r => r.card_hash = h)) := by
  induction rows generalizing gs with
  | nil =>
    cases hg : lookupG h gs <;> simp [List.foldl, hg]
  | cons r rows ih =>
    simp only [List.foldl_cons]
    rw [ih]
    by_cases h1 : r.card_hash = h
    · have h2 : lookupG h (addToGroups gs r) =
          some ((lookupG h gs).getD [] ++ [r]) := by
        rw [lookupG_addToGroups]
        simp [h1]
      rw [h2]
      simp [h1, List.filter_cons]
    · have h2 : lookupG h (addToGroups gs r) = lookupG h gs := by
        rw [lookupG_addToGroups]
        simp [h1]
      rw [h2]
      simp [h1, List.filter_cons]

/-- The group stored under hash `h` is exactly the rows with that hash, in
input order. -/
theorem lookupG_groupByHash (rows : List CardRow) (h : String) :
    lookupG h (groupByHash rows) =
      if rows.filter (fun r => r.card_hash = h) = [] then none
      else some (rows.filter (fun r => r.card_hash = h)) := by
  rw [groupByHash, lookupG_groupByHash_aux]
  simp [lookupG]

theorem lookupG_mem {gs : List (String × List CardRow)} {h : String}
    {g : List CardRow} (hl : lookupG h gs = some g) : (h, g) ∈ gs := by
  induction gs with
  | nil => simp [lookupG] at hl
  | cons p rest ih =>
    obtain ⟨h', g'⟩ := p
    by_cases h1 : h' = h
    · subst h1
      simp [lookupG] at hl
      simp [hl]
    · simp [lookupG, h1] at hl
      exact List.mem_cons_of_mem _ (ih hl)

theorem mem_keys_addToGroups {gs : List (String × List CardRow)} {r : CardRow}
    {x : String} (hx : x ∈ (addToGroups gs r).map Prod.fst) :
    x ∈ gs.map Prod.fst ∨ x = r.card_hash := by
  induction gs with
  | nil => simp [addToGroups] at hx; simp [hx]
  | cons p rest ih =>
    obtain ⟨h', g⟩ := p
    by_cases h1 : h' = r.card_hash
    · simp [addToGroups, h1] at hx
      rcases hx with hx | hx
      · subst h1; right; exact hx
      · left; simp [hx]
    · simp [addToGroups, h1] at hx
      rcases hx with hx | hx
      · left; simp [hx]
      · rcases ih (by simpa using hx) with h2 | h2
        · left; simp [h2]
        · right; exact h2

theorem nodupKeys_addToGroups {gs : List (String × List CardRow)} (r : CardRow)
    (hnd : (gs.map Prod.fst).Nodup) :
    ((addToGroups gs r).map Prod.fst).Nodup := by
  induction gs with
  | nil => simp [addToGroups]
  | cons p rest ih =>
    obtain ⟨h', g⟩ := p
    simp only [List.map_cons, List.nodup_cons] at hnd
    by_cases h1 : h' = r.card_hash
    · simpa [addToGroups, h1, List.nodup_cons] using hnd
    · simp only [addToGroups, h1, if_false, List.map_cons, List.nodup_cons]
      refine ⟨fun hmem => ?_, ih hnd.2⟩
      rcases mem_keys_addToGroups hmem with h2 | h2
      · exact hnd.1 h2
      · exact h1 h2

theorem nodupKeys_groupByHash (rows : List CardRow) :
    ((groupByHash rows).map Prod.fst).Nodup := by
  rw [groupByHash]
  have : ∀ gs : List (String × List CardRow), (gs.map Prod.fst).Nodup →
      ((rows.foldl addToGroups gs).map Prod.fst).Nodup := by
    induction rows with
    | nil => intro gs h; simpa using h
    | cons r rows ih =>
      intro gs h
      exact ih _ (nodupKeys_addToGroups r h)
  exact this [] (by simp)

theorem mem_lookupG {gs : List (String × List CardRow)} {h : String}
    {g : List CardRow} (hmem : (h, g) ∈ gs) (hnd : (gs.map Prod.fst).Nodup) :
    lookupG h gs = some g := by
  induction gs with
  | nil => simp at hmem
  | cons p rest ih =>
    obtain ⟨h', g'⟩ := p
    simp only [List.map_cons, List.nodup_cons] at hnd
    rcases List.mem_cons.1 hmem with heq | hmem'
    · rw [Prod.mk.injEq] at heq
      obtain ⟨rfl, rfl⟩ := heq
      simp [lookupG]
    · have hne : h' ≠ h := by
        intro h1
        subst h1
        exact hnd.1 (by simpa using List.mem_map_of_mem Prod.fst hmem')
      simp [lookupG, hne, ih hmem' hnd.2]

/-- Any group produced by `groupByHash` is the (nonempty) filter of the
input by its hash. -/
theorem group_eq_filter {rows : List CardRow} {h : String} {g : List CardRow}
    (hmem : (h, g) ∈ groupByHash rows) :
    g = rows.filter (fun r => r.card_hash = h) ∧ g ≠ [] := by
  have hl := mem_lookupG hmem (nodupKeys_groupByHash rows)
  rw [lookupG_groupByHash] at hl
  by_cases h1 : rows.filter (fun r => r.card_hash = h) = []
  · simp [h1] at hl
  · simp only [h1, if_false] at hl
    obtain rfl := (Option.some_injective _ hl).symm
    exact ⟨rfl, h1⟩

/-- Claim C6, counterexample.  The code's sentinel is the literal
`"No model card found."` with reason `"No content"`, not the claim's
`"no content found"` with reason `"no content"`: a non-excluded record whose
text is exactly `"no content found"` is left untouched by rule 1, while a
record with text `"No model card found."` is excluded. -/
theorem C6_counterexample :
    applyRule1 [⟨"no content found", 100, false, none⟩]
      = [⟨"no content found", 100, false, none⟩] ∧
    applyRule1 [⟨"No model card found.", 100, false, none⟩]
      = [⟨"No model card found.", 100, true, some "No content"⟩] := by
  constructor <;> decide

/-- Claim C6, amended: rule 1 marks exactly those not-already-excluded
records whose text equals the literal sentinel `"No model card found."` as
excluded with reason `"No content"`, leaves every other record unchanged
under this rule, never un-excludes, and is idempotent. -/
theorem C6_rule1 :
    (∀ c : ModelCard, c.card_text = "No model card found." →
      c.excluded_from_rag = false →
      rule1Card c =
        { c with excluded_from_rag := true, exclusion_reason := some "No content" }) ∧
    (∀ c : ModelCard,
      c.card_text ≠ "No model card found." ∨ c.excluded_from_rag = true →
      rule1Card c = c) ∧
    (∀ c : ModelCard, rule1Card (rule1Card c) = rule1Card c) ∧
    (∀ cards : List ModelCard, applyRule1 (applyRule1 cards) = applyRule1 cards) := by
  have h1 : ∀ c : ModelCard, c.card_text = "No model card found." →
      c.excluded_from_rag = false →
      rule1Card c =
        { c with excluded_from_rag := true, exclusion_reason := some "No content" } := by
    intro c ht he
    simp [rule1Card, ht, he]
  have h2 : ∀ c : ModelCard,
      c.card_text ≠ "No model card found." ∨ c.excluded_from_rag = true →
      rule1Card c = c := by
    intro c hc
    rcases hc with hc | hc
    · simp [rule1Card, hc]
    · simp [rule1Card, hc]
  have h3 : ∀ c : ModelCard, rule1Card (rule1Card c) = rule1Card c := by
    intro c
    by_cases hcond : c.card_text = "No model card found." ∧ c.excluded_from_rag = false
    · rw [h1 c hcond.1 hcond.2]
      exact h2 _ (Or.inr rfl)
    · have hd : c.card_text ≠ "No model card found." ∨ c.excluded_from_rag = true := by
        by_cases ht : c.card_text = "No model card found."
        · right
          by_contra hb
          exact hcond ⟨ht, by simpa using hb⟩
        · left
          exact ht
      rw [h2 c hd]
      exact h2 c hd
  refine ⟨h1, h2, h3, ?_⟩
  intro cards
  simp [applyRule1, List.map_map, Function.comp, h3]

/-- Witness for the amended claim C6 at a concrete record. -/
theorem C6_rule1_witness :
    rule1Card ⟨"No model card found.", 60, false, none⟩
      = ⟨"No model card found.", 60, true, some "No content"⟩ :=
  C6_rule1.1 ⟨"No model card found.", 60, false, none⟩ rfl rfl

theorem sumTok_nil (tc : Tokenizer) : sumTok tc [] = 0 := rfl

theorem sumTok_cons (tc : Tokenizer) (s : MCSection) (l : List MCSection) :
    sumTok tc (s :: l) = count_tokens tc s.content + sumTok tc l := by
  simp [sumTok]

/-- One greedy pass splits its section list into a taken prefix, every
prefix of which fits the budget, and a dropped rest whose first element
would exceed it; the emitted strings are exactly the taken sections'
contents, whole. -/
theorem addSections_spec (tc : Tokenizer) (maxT : Nat)
    (sections : List MCSection) (total : Nat) :
    ∃ taken rest, sections = taken ++ rest ∧
      (addSections tc maxT sections total).1 = taken.map MCSection.content ∧
      (addSections tc maxT sections total).2 = total + sumTok tc taken ∧
      (∀ pre s post, taken = pre ++ s :: post →
        total + sumTok tc pre + count_tokens tc s.content ≤ maxT) ∧
      (∀ s rest', rest = s :: rest' →
        maxT < total + sumTok tc taken + count_tokens tc s.content) := by
  induction sections generalizing total with
  | nil =>
    refine ⟨[], [], rfl, rfl, by simp [addSections, sumTok], ?_, ?_⟩
    · intro pre s post hpre
      exact absurd hpre (by simp)
    · intro s rest' hrest
      exact absurd hrest (by simp)
  | cons s ss ih =>
    by_cases h : total + count_tokens tc s.content ≤ maxT
    · obtain ⟨taken, rest, hsplit, h1, h2, h3, h4⟩ :=
        ih (total + count_tokens tc s.content)
      refine ⟨s :: taken, rest, by simp [hsplit], ?_, ?_, ?_, ?_⟩
      · simp only [addSections, h, if_true]
        simpa using h1
      · simp only [addSections, h, if_true]
        rw [h2, sumTok_cons]
        omega
      · intro pre x post hpre
        cases pre with
        | nil =>
          simp only [List.nil_append] at hpre
          obtain ⟨rfl, rfl⟩ := List.cons.injEq .. ▸ hpre
          simpa [sumTok_nil] using h
        | cons p ps =>
          simp only [List.cons_append] at hpre
          obtain ⟨rfl, htl⟩ := List.cons.injEq .. ▸ hpre
          have := h3 ps x post htl
          rw [sumTok_cons]
          omega
      · intro x rest' hrest
        have := h4 x rest' hrest
        rw [sumTok_cons]
        omega
    · refine ⟨[], s :: ss, rfl, ?_, ?_, ?_, ?_⟩
      · simp [addSections, h]
      · simp [addSections, h, sumTok_nil]
      · intro pre x post hpre
        exact absurd hpre.symm (List.append_ne_nil_of_right_ne_nil pre (by simp))
      · intro x rest' hrest
        obtain ⟨rfl, _⟩ := List.cons.injEq .. ▸ hrest
        simp only [sumTok_nil]
        omega

/-- Claim C7, amended: `extract_key_sections` adds sections greedily, key
sections first and then other sections under the shared running budget, and
never splits a section to fit; but a section whose token count would exceed
the remaining budget ends its whole pass (`break`): it and every later
section of the same pass are dropped, instead of being skipped
individually.  The other-sections pass still runs after the key pass.  The
output is the surviving sections' contents, whole, joined by blank lines
(with the source's fallback to token truncation when the input is empty or
the extraction comes out blank). -/
theorem C7_extract_key_sections :
    ∀ (tok : Tokenizer) (text : String) (maxT : Nat),
    ∃ tk rk tko ro : List MCSection,
      (buildSections ((splitLines text.data).map String.mk) [] none).filter
          (fun s => s.sectionIsKey) = tk ++ rk ∧
      (buildSections ((splitLines text.data).map String.mk) [] none).filter
          (fun s => !s.sectionIsKey) = tko ++ ro ∧
      (∀ pre s post, tk = pre ++ s :: post →
        sumTok tok pre + count_tokens tok s.content ≤ maxT) ∧
      (∀ s r', rk = s :: r' →
        maxT < sumTok tok tk + count_tokens tok s.content) ∧
      (∀ pre s post, tko = pre ++ s :: post →
        sumTok tok tk + sumTok tok pre + count_tokens tok s.content ≤ maxT) ∧
      (∀ s r', ro = s :: r' →
        maxT < sumTok tok tk + sumTok tok tko + count_tokens tok s.content) ∧
      extract_key_sections tok text maxT =
        (if text = "" then ""
         else if pyStrip (String.intercalate "\n\n"
             ((tk ++ tko).map MCSection.content)) = "" then
           tok.decode ((tok.encode text).take maxT)
         else String.intercalate "\n\n" ((tk ++ tko).map MCSection.content)) := by
  intro tok text maxT
  obtain ⟨tk, rk, hs1, h11, h12, h13, h14⟩ :=
    addSections_spec tok maxT
      ((buildSections ((splitLines text.data).map String.mk) [] none).filter
        (fun s => s.sectionIsKey)) 0
  obtain ⟨tko, ro, hs2, h21, h22, h23, h24⟩ :=
    addSections_spec tok maxT
      ((buildSections ((splitLines text.data).map String.mk) [] none).filter
        (fun s => !s.sectionIsKey))
      ((addSections tok maxT
        ((buildSections ((splitLines text.data).map String.mk) [] none).filter
          (fun s => s.sectionIsKey)) 0).2)
  refine ⟨tk, rk, tko, ro, hs1, hs2, ?_, ?_, ?_, ?_, ?_⟩
  · intro pre s post hpre
    simpa using h13 pre s post hpre
  · intro s r' hr
    simpa using h14 s r' hr
  · intro pre s post hpre
    have := h23 pre s post hpre
    rw [h12] at this
    simpa using this
  · intro s r' hr
    have := h24 s r' hr
    rw [h12] at this
    simpa using this
  · by_cases htext : text = ""
    · simp [extract_key_sections, htext]
    · have hjoin :
          (addSections tok maxT
            ((buildSections ((splitLines text.data).map String.mk) [] none).filter
              (fun s => s.sectionIsKey)) 0).1 ++
          (addSections tok maxT
            ((buildSections ((splitLines text.data).map String.mk) [] none).filter
              (fun s => !s.sectionIsKey))
            ((addSections tok maxT
              ((buildSections ((splitLines text.data).map String.mk) [] none).filter
                (fun s => s.sectionIsKey)) 0).2)).1
          = (tk ++ tko).map MCSection.content := by
        rw [h11, h21, List.map_append]
      simp only [extract_key_sections, htext, if_false]
      rw [hjoin]

/-- Claim C7, counterexample.  The text has three key sections; under the
12,000-token budget the first (3000 tokens) is added, the second (9300
tokens) would exceed the remaining budget and the third (3000 tokens) fits
the remaining budget.  The claim says the oversized section is skipped and
the pass "moves on to the next section, which is still added if it fits" —
then the output would contain the third section.  The code instead `break`s
at the oversized section: the output is only the first section. -/
theorem C7_counterexample :
    extract_key_sections ctTok ctText 12000 = "## usage a" ∧
    (buildSections ((splitLines ctText.data).map String.mk) [] none).filter
        (fun s => s.sectionIsKey)
      = [⟨some "usage a", "## usage a", true⟩,
         ⟨some "usage bbbbbbbbbbbbbbbbbbbbbb",
           "## usage bbbbbbbbbbbbbbbbbbbbbb", true⟩,
         ⟨some "usage c", "## usage c", true⟩] ∧
    12000 < count_tokens ctTok "## usage a" +
      count_tokens ctTok "## usage bbbbbbbbbbbbbbbbbbbbbb" ∧
    count_tokens ctTok "## usage a" + count_tokens ctTok "## usage c" ≤ 12000 := by
  have hc : ∀ s : String, count_tokens ctTok s = 300 * s.data.length := by
    intro s
    simp [count_tokens, ctTok]
  have hc1 : count_tokens ctTok "## usage a" = 3000 := by
    rw [hc]
    decide
  have hc2 : count_tokens ctTok "## usage bbbbbbbbbbbbbbbbbbbbbb" = 9300 := by
    rw [hc]
    decide
  have hc3 : count_tokens ctTok "## usage c" = 3000 := by
    rw [hc]
    decide
  have hsec : buildSections ((splitLines ctText.data).map String.mk) [] none
      = [⟨some "usage a", "## usage a", true⟩,
         ⟨some "usage bbbbbbbbbbbbbbbbbbbbbb",
           "## usage bbbbbbbbbbbbbbbbbbbbbb", true⟩,
         ⟨some "usage c", "## usage c", true⟩] := by decide
  have hcons : ∀ (s : MCSection) (rest : List MCSection) (total : Nat),
      addSections ctTok 12000 (s :: rest) total =
        if total + count_tokens ctTok s.content ≤ 12000 then
          (s.content :: (addSections ctTok 12000 rest
              (total + count_tokens ctTok s.content)).1,
           (addSections ctTok 12000 rest
              (total + count_tokens ctTok s.content)).2)
        else ([], total) := fun _ _ _ => rfl
  have hadd : addSections ctTok 12000
      [⟨some "usage a", "## usage a", true⟩,
       ⟨some "usage bbbbbbbbbbbbbbbbbbbbbb",
         "## usage bbbbbbbbbbbbbbbbbbbbbb", true⟩,
       ⟨some "usage c", "## usage c", true⟩] 0
      = (["## usage a"], 3000) := by
    rw [hcons]
    rw [show count_tokens ctTok
        (MCSection.content ⟨some "usage a", "## usage a", true⟩) = 3000 from by
      rw [hc]
      decide]
    rw [if_pos (by norm_num)]
    rw [hcons]
    rw [show count_tokens ctTok
        (MCSection.content ⟨some "usage bbbbbbbbbbbbbbbbbbbbbb",
          "## usage bbbbbbbbbbbbbbbbbbbbbb", true⟩) = 9300 from by
      rw [hc]
      decide]
    rw [if_neg (by norm_num)]
  refine ⟨?_, hsec, by rw [hc1, hc2]; decide, by rw [hc1, hc3]; decide⟩
  simp only [extract_key_sections]
  rw [if_neg (show ¬ ctText = "" by decide)]
  rw [hsec]
  norm_num [List.filter]
  rw [hadd]
  simp [addSections]
  decide

theorem swRun_succ (t o : Nat) (tokens : List Nat) (fuel : Nat) (start : ℤ)
    (acc : List (List Nat)) :
    swRun t o tokens (fuel + 1) start acc =
      if start < (tokens.length : ℤ) then
        if (tokens.length : ℤ) ≤ min (start + (t : ℤ)) (tokens.length : ℤ) then
          some (acc ++ [pySlice tokens start
            (min (start + (t : ℤ)) (tokens.length : ℤ))])
        else swRun t o tokens fuel
          (min (start + (t : ℤ)) (tokens.length : ℤ) - (o : ℤ))
          (acc ++ [pySlice tokens start
            (min (start + (t : ℤ)) (tokens.length : ℤ))])
      else some acc := rfl

/-- `pySlice` at a nonnegative in-range start and end is drop-then-take. -/
theorem pySlice_nat (tokens : List Nat) (s : Nat) (hs : s ≤ tokens.length)
    (e : ℤ) (he1 : (s : ℤ) ≤ e) (he2 : e ≤ (tokens.length : ℤ)) :
    pySlice tokens (s : ℤ) e = (tokens.drop s).take (e.toNat - s) := by
  have h0 : ¬ ((s : ℤ) < 0) := by omega
  have h0e : ¬ (e < 0) := by omega
  have hmins : min (s : ℤ) (tokens.length : ℤ) = (s : ℤ) := by omega
  have hmine : min e (tokens.length : ℤ) = e := by omega
  simp only [pySlice, h0, h0e, if_false, hmins, hmine, Int.toNat_ofNat]
  exact List.drop_take e.toNat s tokens

theorem SWChunks_ne_nil {t o : Nat} {tokens : List Nat} {s : Nat}
    {chunks : List (List Nat)} (h : SWChunks t o tokens s chunks) :
    chunks ≠ [] := by
  cases h <;> simp

/-- Main loop invariant for `overlap < target`: from any in-range start and
with fuel exceeding the remaining tokens, the loop returns, appending
windows of the `SWChunks` shape. -/
theorem swRun_spec (t o : Nat) (ho : o < t) (tokens : List Nat) :
    ∀ (fuel : Nat) (s : Nat) (acc : List (List Nat)),
      s < tokens.length → tokens.length - s < fuel →
      ∃ chunks, swRun t o tokens fuel (s : ℤ) acc = some (acc ++ chunks) ∧
        SWChunks t o tokens s chunks := by
  intro fuel
  induction fuel with
  | zero =>
    intro s acc h1 h2
    omega
  | succ fuel ih =>
    intro s acc hs hfuel
    have hguard : (s : ℤ) < (tokens.length : ℤ) := by exact_mod_cast hs
    by_cases hend : tokens.length ≤ s + t
    · have he : min ((s : ℤ) + (t : ℤ)) (tokens.length : ℤ) = (tokens.length : ℤ) := by
        omega
      have hchunk : pySlice tokens (s : ℤ) (tokens.length : ℤ)
          = (tokens.drop s).take t := by
        rw [pySlice_nat tokens s (le_of_lt hs) _ (by omega) (by omega)]
        rw [Int.toNat_ofNat]
        have h1 : (tokens.drop s).take (tokens.length - s) = tokens.drop s :=
          List.take_of_length_le (by simp)
        have h2 : (tokens.drop s).take t = tokens.drop s :=
          List.take_of_length_le (by simp; omega)
        rw [h1, h2]
      refine ⟨[(tokens.drop s).take t], ?_, SWChunks.last s hend⟩
      rw [swRun_succ, if_pos hguard, he, if_pos le_rfl, hchunk]
    · push_neg at hend
      have he : min ((s : ℤ) + (t : ℤ)) (tokens.length : ℤ) = ((s + t : Nat) : ℤ) := by
        push_cast
        omega
      have hchunk : pySlice tokens (s : ℤ) ((s + t : Nat) : ℤ)
          = (tokens.drop s).take t := by
        rw [pySlice_nat tokens s (le_of_lt hs) _ (by push_cast; omega)
          (by push_cast; omega)]
        rw [Int.toNat_ofNat]
        congr 1
        omega
      have hnext : ((s + t : Nat) : ℤ) - (o : ℤ) = ((s + t - o : Nat) : ℤ) := by
        push_cast
        omega
      obtain ⟨chunks, hrun, hsw⟩ := ih (s + t - o) (acc ++ [(tokens.drop s).take t])
        (by omega) (by omega)
      refine ⟨((tokens.drop s).take t) :: chunks, ?_, SWChunks.step s chunks hend hsw⟩
      rw [swRun_succ, if_pos hguard, he, if_neg (by push_cast; omega), hchunk,
        hnext, hrun]
      simp

theorem SWChunks_len {t o : Nat} {tokens : List Nat} {s : Nat}
    {chunks : List (List Nat)} (h : SWChunks t o tokens s chunks) :
    ∀ c ∈ chunks, c.length ≤ t := by
  induction h with
  | last s hend =>
    intro c hc
    simp only [List.mem_singleton] at hc
    subst hc
    simp [List.length_take]
  | step s rest hlt hrec ih =>
    intro c hc
    rcases List.mem_cons.1 hc with rfl | hc
    · simp [List.length_take]
    · exact ih c hc

theorem SWChunks_cover {t o : Nat} {tokens : List Nat} {s : Nat}
    {chunks : List (List Nat)} (h : SWChunks t o tokens s chunks) :
    ∀ j, s ≤ j → j < tokens.length →
      ∃ c ∈ chunks, ∃ sc : Nat, c = (tokens.drop sc).take t ∧
        sc ≤ j ∧ j < sc + c.length := by
  induction h with
  | last s hend =>
    intro j hj1 hj2
    refine ⟨(tokens.drop s).take t, by simp, s, rfl, hj1, ?_⟩
    have : ((tokens.drop s).take t).length = min t (tokens.length - s) := by
      simp [List.length_take]
    omega
  | step s rest hlt hrec ih =>
    intro j hj1 hj2
    by_cases hj : j < s + t
    · refine ⟨(tokens.drop s).take t, by simp, s, rfl, hj1, ?_⟩
      have : ((tokens.drop s).take t).length = min t (tokens.length - s) := by
        simp [List.length_take]
      omega
    · obtain ⟨c, hc, sc, h1, h2, h3⟩ := ih j (by omega) hj2
      exact ⟨c, List.mem_cons_of_mem _ hc, sc, h1, h2, h3⟩

theorem SWChunks_last_suffix {t o : Nat} {tokens : List Nat} {s : Nat}
    {chunks : List (List Nat)} (h : SWChunks t o tokens s chunks) :
    ∃ sc : Nat, chunks.getLast? = some (tokens.drop sc) ∧
      tokens.length ≤ sc + t := by
  induction h with
  | last s hend =>
    refine ⟨s, ?_, hend⟩
    have : (tokens.drop s).take t = tokens.drop s :=
      List.take_of_length_le (by simp; omega)
    simp [this]
  | step s rest hlt hrec ih =>
    obtain ⟨sc, h1, h2⟩ := ih
    refine ⟨sc, ?_, h2⟩
    obtain ⟨r, rs, rfl⟩ := List.exists_cons_of_ne_nil (SWChunks_ne_nil hrec)
    simpa using h1

theorem SWChunks_head_shape {t o : Nat} {tokens : List Nat} {s : Nat}
    {chunks : List (List Nat)} (h : SWChunks t o tokens s chunks) :
    ∃ rest, chunks = ((tokens.drop s).take t) :: rest := by
  cases h with
  | last _ _ => exact ⟨[], rfl⟩
  | step _ rest _ _ => exact ⟨rest, rfl⟩

/-- Consecutive windows overlap in exactly the `overlap` trailing/leading
tokens. -/
theorem SWChunks_chain_overlap {t o : Nat} {tokens : List Nat} {s : Nat}
    {chunks : List (List Nat)} (ho : o < t) (h : SWChunks t o tokens s chunks) :
    List.Chain' (fun c1 c2 => c2.take o = c1.drop (c1.length - o)) chunks := by
  induction h with
  | last s hend => simp
  | step s rest hlt hrec ih =>
    obtain ⟨rest2, hrest⟩ := SWChunks_head_shape hrec
    rw [hrest]
    rw [hrest] at ih
    refine List.Chain'.cons ?_ ih
    have hlen1 : ((tokens.drop s).take t).length = t := by
      simp [List.length_take]
      omega
    rw [hlen1]
    rw [List.take_take, min_eq_left (le_of_lt ho)]
    rw [List.drop_take]
    have harith : t - (t - o) = o := by omega
    rw [harith]
    rw [List.drop_drop]
    have harith2 : s + (t - o) = s + t - o := by omega
    rw [harith2]

/-- Claim C8: whenever the sliding-window split runs with
`overlap < target` on a nonempty token sequence, the loop terminates and
the produced windows each hold at most `target` tokens, start at 0 and
advance by `target - overlap` per step (the `SWChunks` shape), cover every
token index with no gaps, end exactly at the last token, and consecutive
windows share exactly `overlap` tokens; the text-level function decodes
exactly these windows. -/
theorem C8_sliding_window_split (tok : Tokenizer) (text : String)
    (t o : Nat) (ho : o < t) (hne : tok.encode text ≠ []) :
    ∃ chunks,
      sliding_window_tokens t o (tok.encode text) = some chunks ∧
      sliding_window_split tok t o text = some (chunks.map tok.decode) ∧
      SWChunks t o (tok.encode text) 0 chunks ∧
      (∀ c ∈ chunks, c.length ≤ t) ∧
      (∀ j < (tok.encode text).length, ∃ c ∈ chunks, ∃ sc : Nat,
        c = ((tok.encode text).drop sc).take t ∧ sc ≤ j ∧ j < sc + c.length) ∧
      (∃ sc : Nat, chunks.getLast? = some ((tok.encode text).drop sc) ∧
        (tok.encode text).length ≤ sc + t) ∧
      List.Chain' (fun c1 c2 => c2.take o = c1.drop (c1.length - o)) chunks := by
  have hlen : 0 < (tok.encode text).length := List.length_pos.2 hne
  obtain ⟨chunks, hrun, hsw⟩ := swRun_spec t o ho (tok.encode text)
    ((tok.encode text).length + 1) 0 [] hlen (by omega)
  refine ⟨chunks, ?_, ?_, hsw, SWChunks_len hsw, ?_, SWChunks_last_suffix hsw,
    SWChunks_chain_overlap ho hsw⟩
  · rw [sliding_window_tokens]
    simpa using hrun
  · rw [sliding_window_split, sliding_window_tokens]
    rw [show ((0 : Nat) : ℤ) = (0 : ℤ) from rfl] at hrun
    simp only [hrun]
    simp
  · intro j hj
    exact SWChunks_cover hsw j (Nat.zero_le j) hj

/-- Witness for claim C8 at `target 3`, `overlap 1` on five tokens. -/
theorem C8_sliding_window_split_witness :
    (1 < 3 ∧
      (Tokenizer.mk (fun s => s.data.map Char.toNat)
        (fun l => String.mk (l.map Char.ofNat))).encode "abcde" ≠ []) ∧
    (∃ chunks,
      sliding_window_tokens 3 1
        ((Tokenizer.mk (fun s => s.data.map Char.toNat)
          (fun l => String.mk (l.map Char.ofNat))).encode "abcde") = some chunks ∧
      sliding_window_split (Tokenizer.mk (fun s => s.data.map Char.toNat)
        (fun l => String.mk (l.map Char.ofNat))) 3 1 "abcde"
        = some (chunks.map (Tokenizer.mk (fun s => s.data.map Char.toNat)
            (fun l => String.mk (l.map Char.ofNat))).decode) ∧
      SWChunks 3 1 ((Tokenizer.mk (fun s => s.data.map Char.toNat)
        (fun l => String.mk (l.map Char.ofNat))).encode "abcde") 0 chunks ∧
      (∀ c ∈ chunks, c.length ≤ 3) ∧
      (∀ j < ((Tokenizer.mk (fun s => s.data.map Char.toNat)
          (fun l => String.mk (l.map Char.ofNat))).encode "abcde").length,
        ∃ c ∈ chunks, ∃ sc : Nat,
        c = (((Tokenizer.mk (fun s => s.data.map Char.toNat)
          (fun l => String.mk (l.map Char.ofNat))).encode "abcde").drop sc).take 3 ∧
          sc ≤ j ∧ j < sc + c.length) ∧
      (∃ sc : Nat, chunks.getLast? = some (((Tokenizer.mk
          (fun s => s.data.map Char.toNat)
          (fun l => String.mk (l.map Char.ofNat))).encode "abcde").drop sc) ∧
        ((Tokenizer.mk (fun s => s.data.map Char.toNat)
          (fun l => String.mk (l.map Char.ofNat))).encode "abcde").length ≤ sc + 3) ∧
      List.Chain' (fun c1 c2 => c2.take 1 = c1.drop (c1.length - 1)) chunks) :=
  ⟨⟨by decide, by decide⟩,
    C8_sliding_window_split
      (Tokenizer.mk (fun s => s.data.map Char.toNat)
        (fun l => String.mk (l.map Char.ofNat))) "abcde" 3 1
      (by decide) (by decide)⟩

/-- With `overlap >= target` the start variable never advances past 0 on a
token sequence longer than `target`: the loop never returns, whatever the
fuel. -/
theorem swRun_stuck (t o : Nat) (hto : t ≤ o) :
    ∀ (fuel : Nat) (s : ℤ), s ≤ 0 → ∀ acc,
      swRun t o (List.replicate (t + 1) 0) fuel s acc = none := by
  intro fuel
  induction fuel with
  | zero => intro s hs acc; rfl
  | succ fuel ih =>
    intro s hs acc
    have hlen : ((List.replicate (t + 1) (0 : Nat)).length : ℤ) = (t + 1 : ℤ) := by
      simp
    rw [swRun_succ, hlen]
    rw [if_pos (by omega)]
    rw [if_neg (by omega)]
    have hmin : min (s + (t : ℤ)) ((t : ℤ) + 1) = s + (t : ℤ) := by omega
    rw [hmin]
    exact ih (s + (t : ℤ) - (o : ℤ)) (by omega) _

/-- Claim C10: the sliding-window loop terminates on every token sequence
iff the configured overlap is strictly less than the target (each loop
iteration advances the start by `target - overlap`); with
`overlap >= target` a sequence of `target + 1` tokens loops forever.  The
defaults (target 900, overlap 120) satisfy the precondition. -/
theorem C10_sliding_window_terminates :
    ∀ t o : Nat, (∀ tokens : List Nat, SWTerminates t o tokens) ↔ o < t := by
  intro t o
  constructor
  · intro hall
    by_contra hto
    push_neg at hto
    obtain ⟨fuel, r, hr⟩ := hall (List.replicate (t + 1) 0)
    rw [swRun_stuck t o hto fuel 0 le_rfl []] at hr
    exact Option.noConfusion hr
  · intro ho tokens
    by_cases hne : tokens = []
    · subst hne
      refine ⟨1, [], ?_⟩
      rw [swRun_succ]
      rw [if_neg (by simp)]
    · have hlen : 0 < tokens.length := List.length_pos.2 hne
      obtain ⟨chunks, hrun, _⟩ := swRun_spec t o ho tokens
        (tokens.length + 1) 0 [] hlen (by omega)
      exact ⟨tokens.length + 1, chunks, by simpa using hrun⟩

/-- Witness for claim C10 at the source defaults (target 900, overlap 120):
termination for every input holds. -/
theorem C10_sliding_window_terminates_witness :
    (∀ tokens : List Nat, SWTerminates 900 120 tokens) ∧ 120 < 900 :=
  ⟨(C10_sliding_window_terminates 900 120).2 (by decide), by decide⟩

theorem rowLe_refl (a : CardRow) : rowLe a a = true := by
  simp [rowLe, rowSortKey, prodLe_eq_true_iff, baseLe_eq_true_iff]

theorem rowLe_iff_of_eq_hash {a b : CardRow} (hh : a.card_hash = b.card_hash) :
    rowLe a b = true ↔ CanonClaimLe a b := by
  simp only [rowLe, rowSortKey, prodLe_eq_true_iff, baseLe_eq_true_iff, hh,
    lt_self_iff_false, false_or, neg_lt_neg_iff, neg_inj, Nat.cast_lt,
    Nat.cast_inj, CanonClaimLe, true_and]

theorem mem_m2cOfGroups (p : String × String)
    (gs : List (String × List CardRow)) :
    p ∈ m2cOfGroups gs ↔
      ∃ hg ∈ gs, ∃ r ∈ hg.2, p = (r.model_id, hg.1) := by
  induction gs with
  | nil => simp [m2cOfGroups]
  | cons q rest ih =>
    obtain ⟨h, g⟩ := q
    simp only [m2cOfGroups, List.mem_append, List.mem_map, ih, List.mem_cons]
    constructor
    · rintro (⟨r, hr, rfl⟩ | ⟨hg, hmem, r, hr, rfl⟩)
      · exact ⟨(h, g), Or.inl rfl, r, hr, rfl⟩
      · exact ⟨hg, Or.inr hmem, r, hr, rfl⟩
    · rintro ⟨hg, hmem | hmem, r, hr, rfl⟩
      · subst hmem
        exact Or.inl ⟨r, hr, rfl⟩
      · exact Or.inr ⟨hg, hmem, r, hr, rfl⟩

/-- Claim C5: `build_canonical_mapping` groups the non-excluded rows by
content hash (one canonical entry per distinct hash present); within each
group the canonical id belongs to a member that is least under (downloads
descending, likes descending, entity id ascending, missing metrics as 0);
the entry records the group's size as duplicate count; and the
model-to-card mapping sends every member to its group's hash.  In the
spec's example with A (downloads 100, likes 5) and B, C (both downloads
100, likes 10) with id order a < b < c, the canonical is B. -/
theorem C5_build_canonical_mapping :
    (∀ rows : List CardRow,
      ((build_canonical_mapping rows).1.map CanonEntry.card_hash).Nodup ∧
      (∀ r ∈ rows, ∃ e ∈ (build_canonical_mapping rows).1,
        e.card_hash = r.card_hash) ∧
      (∀ e ∈ (build_canonical_mapping rows).1,
        e.duplicate_count =
          (rows.filter (fun r => r.card_hash = e.card_hash)).length ∧
        ∃ r ∈ rows, r.card_hash = e.card_hash ∧
          r.model_id = e.canonical_model_id ∧
          ∀ r' ∈ rows, r'.card_hash = e.card_hash → CanonClaimLe r r') ∧
      (∀ r ∈ rows, (r.model_id, r.card_hash) ∈ (build_canonical_mapping rows).2) ∧
      (∀ p ∈ (build_canonical_mapping rows).2,
        ∃ r ∈ rows, p = (r.model_id, r.card_hash))) ∧
    build_canonical_mapping
      [⟨"a", "h", some 100, some 5⟩, ⟨"b", "h", some 100, some 10⟩,
       ⟨"c", "h", some 100, some 10⟩]
      = ([⟨"h", "b", 3⟩], [("b", "h"), ("c", "h"), ("a", "h")]) := by
  constructor
  · intro rows
    have hperm : List.Perm (pySorted rowLe rows) rows := pySorted_perm _ _
    have hpw : (pySorted rowLe rows).Pairwise (fun a b => rowLe a b = true) :=
      pairwise_pySorted _ rowLe_total rowLe_trans rows
    refine ⟨?_, ?_, ?_, ?_, ?_⟩
    · have hmm : ((build_canonical_mapping rows).1.map CanonEntry.card_hash) =
          (groupByHash (pySorted rowLe rows)).map Prod.fst := by
        simp [build_canonical_mapping, List.map_map, Function.comp]
      rw [hmm]
      exact nodupKeys_groupByHash _
    · intro r hr
      have hr' : r ∈ pySorted rowLe rows := (mem_pySorted _ _ _).2 hr
      have hfil : r ∈ (pySorted rowLe rows).filter
          (fun x => x.card_hash = r.card_hash) :=
        List.mem_filter.2 ⟨hr', by simp⟩
      have hne := List.ne_nil_of_mem hfil
      have hl : lookupG r.card_hash (groupByHash (pySorted rowLe rows)) =
          some ((pySorted rowLe rows).filter (fun x => x.card_hash = r.card_hash)) := by
        rw [lookupG_groupByHash]
        simp [hne]
      exact ⟨_, List.mem_map_of_mem _ (lookupG_mem hl), rfl⟩
    · intro e he
      obtain ⟨⟨h, g⟩, hg, rfl⟩ := List.mem_map.1 he
      obtain ⟨hgf, hgne⟩ := group_eq_filter hg
      obtain ⟨r0, rest, rfl⟩ := List.exists_cons_of_ne_nil hgne
      have hr0fil : r0 ∈ (pySorted rowLe rows).filter (fun r => r.card_hash = h) := by
        rw [← hgf]
        exact List.mem_cons_self _ _
      have hr0 := List.mem_filter.1 hr0fil
      have hr0hash : r0.card_hash = h := by simpa using hr0.2
      have hgpw : (r0 :: rest).Pairwise (fun a b => rowLe a b = true) := by
        rw [hgf]
        exact hpw.filter _
      refine ⟨?_, r0, (hperm.mem_iff).1 hr0.1, hr0hash, rfl, ?_⟩
      · show (r0 :: rest).length = _
        rw [hgf]
        exact (hperm.filter _).length_eq
      · intro r' hr' hr'h
        have hr'fil : r' ∈ (pySorted rowLe rows).filter (fun r => r.card_hash = h) :=
          List.mem_filter.2 ⟨(mem_pySorted _ _ _).2 hr', by simpa using hr'h⟩
        rw [← hgf] at hr'fil
        have hhash : r0.card_hash = r'.card_hash := by rw [hr0hash, hr'h]
        rcases List.mem_cons.1 hr'fil with rfl | hmem
        · exact (rowLe_iff_of_eq_hash rfl).1 (rowLe_refl _)
        · exact (rowLe_iff_of_eq_hash hhash).1 ((List.pairwise_cons.1 hgpw).1 r' hmem)
    · intro r hr
      have hr' : r ∈ pySorted rowLe rows := (mem_pySorted _ _ _).2 hr
      have hfil : r ∈ (pySorted rowLe rows).filter
          (fun x => x.card_hash = r.card_hash) :=
        List.mem_filter.2 ⟨hr', by simp⟩
      have hne := List.ne_nil_of_mem hfil
      have hl : lookupG r.card_hash (groupByHash (pySorted rowLe rows)) =
          some ((pySorted rowLe rows).filter (fun x => x.card_hash = r.card_hash)) := by
        rw [lookupG_groupByHash]
        simp [hne]
      exact (mem_m2cOfGroups _ _).2 ⟨_, lookupG_mem hl, r, hfil, rfl⟩
    · intro p hp
      obtain ⟨⟨h, g⟩, hgmem, r, hrg, rfl⟩ := (mem_m2cOfGroups _ _).1 hp
      obtain ⟨hgf, _⟩ := group_eq_filter hgmem
      rw [hgf] at hrg
      have hr := List.mem_filter.1 hrg
      have : r.card_hash = h := by simpa using hr.2
      exact ⟨r, (hperm.mem_iff).1 hr.1, by rw [this]⟩
  · decide

/-- Claim C1: chunking is deterministic — for a fixed configuration, hash
function and tokenizer, two runs of `chunk_text` on identical inputs
produce identical results: the same chunk lists with the same number of
chunks, in the same order, with identical chunk texts, identical chunk
indices and identical chunk hashes (`chunk_text` is a pure function of its
inputs; no randomness enters anywhere). -/
theorem C1_chunk_text_deterministic :
    ∀ (hashf : String → String) (tok : Tokenizer) (cfg : ChunkConfig)
      (text1 text2 card1 card2 : String) (n1 n2 : Nat),
      text1 = text2 → card1 = card2 → n1 = n2 →
      chunk_text hashf tok cfg text1 card1 n1
        = chunk_text hashf tok cfg text2 card2 n2 ∧
      (chunk_text hashf tok cfg text1 card1 n1).map List.length
        = (chunk_text hashf tok cfg text2 card2 n2).map List.length ∧
      (chunk_text hashf tok cfg text1 card1 n1).map (List.map Chunk.chunk_text)
        = (chunk_text hashf tok cfg text2 card2 n2).map (List.map Chunk.chunk_text) ∧
      (chunk_text hashf tok cfg text1 card1 n1).map (List.map Chunk.chunk_index)
        = (chunk_text hashf tok cfg text2 card2 n2).map (List.map Chunk.chunk_index) ∧
      (chunk_text hashf tok cfg text1 card1 n1).map (List.map Chunk.chunk_hash)
        = (chunk_text hashf tok cfg text2 card2 n2).map (List.map Chunk.chunk_hash) := by
  intro hashf tok cfg text1 text2 card1 card2 n1 n2 ht hc hn
  subst ht
  subst hc
  subst hn
  exact ⟨rfl, rfl, rfl, rfl, rfl⟩

/-- Witness for claim C1 at a concrete tokenizer, hash function and card:
the hypotheses hold and the chunking evaluates to a single chunk. -/
theorem C1_chunk_text_deterministic_witness :
    (("hello" : String) = "hello" ∧ ("h" : String) = "h" ∧ (5 : Nat) = 5) ∧
    (chunk_text (fun s => s)
        (Tokenizer.mk (fun s => s.data.map Char.toNat)
          (fun l => String.mk (l.map Char.ofNat)))
        ⟨900, 120⟩ "hello" "h" 5
      = chunk_text (fun s => s)
        (Tokenizer.mk (fun s => s.data.map Char.toNat)
          (fun l => String.mk (l.map Char.ofNat)))
        ⟨900, 120⟩ "hello" "h" 5 ∧
      (chunk_text (fun s => s)
        (Tokenizer.mk (fun s => s.data.map Char.toNat)
          (fun l => String.mk (l.map Char.ofNat)))
        ⟨900, 120⟩ "hello" "h" 5).map List.length
        = (chunk_text (fun s => s)
        (Tokenizer.mk (fun s => s.data.map Char.toNat)
          (fun l => String.mk (l.map Char.ofNat)))
        ⟨900, 120⟩ "hello" "h" 5).map List.length ∧
      (chunk_text (fun s => s)
        (Tokenizer.mk (fun s => s.data.map Char.toNat)
          (fun l => String.mk (l.map Char.ofNat)))
        ⟨900, 120⟩ "hello" "h" 5).map (List.map Chunk.chunk_text)
        = (chunk_text (fun s => s)
        (Tokenizer.mk (fun s => s.data.map Char.toNat)
          (fun l => String.mk (l.map Char.ofNat)))
        ⟨900, 120⟩ "hello" "h" 5).map (List.map Chunk.chunk_text) ∧
      (chunk_text (fun s => s)
        (Tokenizer.mk (fun s => s.data.map Char.toNat)
          (fun l => String.mk (l.map Char.ofNat)))
        ⟨900, 120⟩ "hello" "h" 5).map (List.map Chunk.chunk_index)
        = (chunk_text (fun s => s)
        (Tokenizer.mk (fun s => s.data.map Char.toNat)
          (fun l => String.mk (l.map Char.ofNat)))
        ⟨900, 120⟩ "hello" "h" 5).map (List.map Chunk.chunk_index) ∧
      (chunk_text (fun s => s)
        (Tokenizer.mk (fun s => s.data.map Char.toNat)
          (fun l => String.mk (l.map Char.ofNat)))
        ⟨900, 120⟩ "hello" "h" 5).map (List.map Chunk.chunk_hash)
        = (chunk_text (fun s => s)
        (Tokenizer.mk (fun s => s.data.map Char.toNat)
          (fun l => String.mk (l.map Char.ofNat)))
        ⟨900, 120⟩ "hello" "h" 5).map (List.map Chunk.chunk_hash)) ∧
    chunk_text (fun s => s)
        (Tokenizer.mk (fun s => s.data.map Char.toNat)
          (fun l => String.mk (l.map Char.ofNat)))
        ⟨900, 120⟩ "hello" "h" 5
      = some [⟨"hello", "h", 0, "hello", 5⟩] :=
  ⟨⟨rfl, rfl, rfl⟩,
    C1_chunk_text_deterministic (fun s => s)
      (Tokenizer.mk (fun s => s.data.map Char.toNat)
        (fun l => String.mk (l.map Char.ofNat)))
      ⟨900, 120⟩ "hello" "hello" "h" "h" 5 5 rfl rfl rfl,
    by decide⟩

end AIArch
